import Mathlib

/-
  Verification of the scoring and aggregation engine of the league-api
  repository (src/worldsproject/compare_teams.py).

  The Python code is shallowly embedded: match records become a structure,
  floats become exact rationals, Python dicts (including `defaultdict`
  insertion-order semantics) become association lists, and the
  `UnboundLocalError` that CPython raises when the local variable
  `opponents` is read before its first assignment is modelled by the
  ranking engine returning `Except.error`.
-/

namespace CompareTeams

/-- A raw match record, as consumed by `calculate_weighted_rankings`.
`winner` is `none` when the record has no `winner` entry or the winner has
no `id`; `opponentsRaw` models the `opponents` list, with `none` for an
entry lacking `opponent`/`id`; `games` is the length of the `games` list;
`league` is the optional league id (`match.get('league', {}).get('id')`). -/
structure MatchRec where
  winner : Option Nat
  opponentsRaw : List (Option Nat)
  games : Nat
  league : Option Nat
deriving Repr, DecidableEq

/-- The opponent-id extraction performed identically at lines 161, 190 and
234 of compare_teams.py: keep only well-formed opponent entries. -/
def getOpponents (m : MatchRec) : List Nat :=
  m.opponentsRaw.filterMap id

/-- `next((opp_id for opp_id in opponents if opp_id != winner_id), None)`:
the first listed opponent different from the winner, if any. -/
def getLoser (wid : Nat) (opponents : List Nat) : Option Nat :=
  opponents.find? (fun o => o != wid)

/-- The computed loser of a match (None when the match has no winner id or
no opponent distinct from the winner). -/
def loserOf (m : MatchRec) : Option Nat :=
  match m.winner with
  | none => none
  | some wid => getLoser wid (getOpponents m)

/-- The `(winner_id, loser_id)` pair of a match that passes the
`if winner_id and loser_id:` truthiness guard used by pass 2 (line 193)
and by the head-to-head aggregator (line 237); `none` otherwise.
Python integer truthiness makes id 0 falsy. -/
def scoredPair (m : MatchRec) : Option (Nat × Nat) :=
  match m.winner with
  | none => none
  | some wid =>
    match getLoser wid (getOpponents m) with
    | none => none
    | some lid => if wid ≠ 0 ∧ lid ≠ 0 then some (wid, lid) else none

/-- One entry of `ranking_data` (line 151). -/
structure Standing where
  wins : Nat
  losses : Nat
  points : ℚ
  name : String
  total_games : Nat
  normalized_points : ℚ
deriving Repr, DecidableEq

/-- The `defaultdict` default value factory of line 151. -/
def defaultStanding : Standing :=
  { wins := 0, losses := 0, points := 0, name := "", total_games := 0
    normalized_points := 0 }

/-- Association-list lookup (Python dict read). -/
def lookupA {α β : Type} [DecidableEq α] (k : α) : List (α × β) → Option β
  | [] => none
  | e :: rest => if e.1 = k then some e.2 else lookupA k rest

/-- Python `k in d`. -/
def hasKey {α β : Type} [DecidableEq α] (k : α) (l : List (α × β)) : Bool :=
  (lookupA k l).isSome

/-- Update the value at an existing key, leaving the list unchanged when the
key is absent (used where the Python code guards with `k in d`). -/
def updA {α β : Type} [DecidableEq α] (k : α) (f : β → β) : List (α × β) → List (α × β)
  | [] => []
  | e :: rest => if e.1 = k then (e.1, f e.2) :: rest else e :: updA k f rest

/-- `defaultdict` mutation `d[k] = f(d[k])`: update in place when present,
otherwise materialize the default at the end (insertion order). -/
def updD {α β : Type} [DecidableEq α] (d : β) (k : α) (f : β → β) (l : List (α × β)) : List (α × β) :=
  if hasKey k l then updA k f l else l ++ [(k, f d)]

/-- Dict read with a default (`d.get(k, dflt)`). -/
def getA {α β : Type} [DecidableEq α] (d : β) (k : α) (l : List (α × β)) : β :=
  (lookupA k l).getD d

/-- Lines 153-154: seed `ranking_data` with a (default) standing carrying
the display name for every team of `team_id_name_map`. -/
def initRD (tm : List (Nat × String)) : List (Nat × Standing) :=
  tm.foldl (fun rd e => updD defaultStanding e.1 (fun s => { s with name := e.2 }) rd) []

/-- State threaded through pass 1: the `ranking_data` dict together with
the Python local variable `opponents`, which is `none` while still unbound. -/
structure P1State where
  rd : List (Nat × Standing)
  opps : Option (List Nat)
deriving Repr, DecidableEq

/-- `ranking_data[winner_id]["wins"] += 1` (line 165). -/
def incWins (s : Standing) : Standing := { s with wins := s.wins + 1 }

/-- `ranking_data[loser_id]["losses"] += 1` (line 167). -/
def incLosses (s : Standing) : Standing := { s with losses := s.losses + 1 }

/-- `ranking_data[team_id]["total_games"] += num_games` (lines 175/177). -/
def addGames (g : Nat) (s : Standing) : Standing := { s with total_games := s.total_games + g }

/-- `ranking_data[winner_id]["points"] += points_awarded` (line 212). -/
def addPoints (p : ℚ) (s : Standing) : Standing := { s with points := s.points + p }

/-- The guarded mutation pattern `if k in ranking_data: <mutate ranking_data[k]>`. -/
def guardUpd (k : Nat) (f : Standing → Standing) (rd : List (Nat × Standing)) : List (Nat × Standing) :=
  if hasKey k rd then updA k f rd else rd

/-- Lines 164-167: increment the winner's `wins` and the computed loser's
`losses`, each only when already tracked. -/
def winLossBlock (wid : Nat) (m : MatchRec) (rd : List (Nat × Standing)) : List (Nat × Standing) :=
  let rd1 := guardUpd wid incWins rd
  match getLoser wid (getOpponents m) with
  | some l => guardUpd l incLosses rd1
  | none => rd1

/-- Lines 172-177: when the (possibly stale) `opponents` value lists
exactly two ids, add the current match's game count to each tracked one. -/
def gamesBlock (g : Nat) (opponents : List Nat) (rd : List (Nat × Standing)) : List (Nat × Standing) :=
  match opponents with
  | [t1, t2] => guardUpd t2 (addGames g) (guardUpd t1 (addGames g) rd)
  | _ => rd

/-- One iteration of the pass-1 loop (lines 157-177).  The win/loss block
runs only when the match has a winner id and rebinds `opponents`; the
games-played block always runs and reads whatever `opponents` currently
holds — raising `UnboundLocalError` when it was never assigned. -/
def pass1Step (st : P1State) (m : MatchRec) : Except String P1State :=
  let st1 :=
    match m.winner with
    | some wid =>
      ({ rd := winLossBlock wid m st.rd, opps := some (getOpponents m) } : P1State)
    | none => st
  match st1.opps with
  | none => Except.error "UnboundLocalError: local variable referenced before assignment"
  | some opponents =>
    Except.ok { rd := gamesBlock m.games opponents st1.rd, opps := some opponents }

/-- Pass 1 over the whole match list. -/
def pass1 (ms : List MatchRec) (rd0 : List (Nat × Standing)) : Except String P1State :=
  ms.foldlM pass1Step { rd := rd0, opps := none }

/-- Lines 180-183: `wins / (wins+losses)` guarded against zero matches. -/
def winrateOf (s : Standing) : ℚ :=
  if s.wins + s.losses > 0 then (s.wins : ℚ) / ((s.wins : ℚ) + (s.losses : ℚ)) else 0

/-- The `winrates` dict, one entry per `ranking_data` key. -/
def winratesOf (rd : List (Nat × Standing)) : List (Nat × ℚ) :=
  rd.map (fun e => (e.1, winrateOf e.2))

/-- `winrates.get(team_id, 0)`. -/
def wrGet (wr : List (Nat × ℚ)) (k : Nat) : ℚ :=
  getA 0 k wr

/-- Line 23. -/
def BASE_WIN_POINTS : ℚ := 100

/-- Lines 24-28 (1.2 and 1.5 as exact rationals). -/
def SERIES_MULTIPLIERS : List (Nat × ℚ) := [(1, 1), (3, 6/5), (5, 3/2)]

/-- `SERIES_MULTIPLIERS.get(num_games, 1.0)`. -/
def seriesMultGet (n : Nat) : ℚ :=
  getA 1 n SERIES_MULTIPLIERS

/-- Lines 32-38: the league-weight table ships empty (all entries are
commented out in the source). -/
def LEAGUE_WEIGHTS : List (Nat × ℚ) := []

/-- `LEAGUE_WEIGHTS.get(league_id, 1.0)`, where `league_id` may be None. -/
def leagueWeightGet (l : Option Nat) : ℚ :=
  match l with
  | none => 1
  | some lid => getA 1 lid LEAGUE_WEIGHTS

/-- Lines 207-209: the upset bonus multiplier. -/
def winrateMultiplier (ww lw : ℚ) : ℚ :=
  if ww < lw then 1 + (lw - ww) else 1

/-- Line 211: `BASE_WIN_POINTS * series * winrate * league`. -/
def pointsAwarded (wr : List (Nat × ℚ)) (m : MatchRec) (wid lid : Nat) : ℚ :=
  BASE_WIN_POINTS * seriesMultGet m.games * winrateMultiplier (wrGet wr wid) (wrGet wr lid) * leagueWeightGet m.league

/-- One iteration of the pass-2 loop (lines 186-212): a scored match adds
the weighted points to the winner's entry, materializing it via the
`defaultdict` if the winner was not tracked. -/
def pass2Step (wr : List (Nat × ℚ)) (rd : List (Nat × Standing)) (m : MatchRec) : List (Nat × Standing) :=
  match scoredPair m with
  | none => rd
  | some (wid, lid) =>
    updD defaultStanding wid (addPoints (pointsAwarded wr m wid lid)) rd

/-- Lines 216-217: the per-team normalization update. -/
def finalizeStanding (s : Standing) : Standing :=
  if s.total_games > 0 then { s with normalized_points := s.points / (s.total_games : ℚ) }
  else s

/-- Lines 214-217: set `normalized_points = points / total_games` for
teams with at least one game. -/
def finalizePass (rd : List (Nat × Standing)) : List (Nat × Standing) :=
  rd.map (fun e => (e.1, finalizeStanding e.2))

/-- The sort order of line 220: `a` may precede `b` iff `a`'s
`normalized_points` is not smaller. -/
def rankGE (a b : Standing) : Prop :=
  b.normalized_points ≤ a.normalized_points

instance : DecidableRel rankGE := fun a b =>
  inferInstanceAs (Decidable (b.normalized_points ≤ a.normalized_points))

/-- Line 220: `ranked_list.sort(key=..., reverse=True)`.  Python's sort is
stable, and the output of a stable sort is uniquely determined by the
comparison, so the (also stable) insertion sort is an exact model of it. -/
def sortStandings (l : List Standing) : List Standing :=
  l.insertionSort rankGE

/-- The whole engine up to (and including) normalization, still keyed by
team id: passes 1-3 of `calculate_weighted_rankings`. -/
def rankingDataOf (ms : List MatchRec) (tm : List (Nat × String)) : Except String (List (Nat × Standing)) :=
  match pass1 ms (initRD tm) with
  | Except.error e => Except.error e
  | Except.ok st =>
    let wr := winratesOf st.rd
    let rd2 := ms.foldl (pass2Step wr) st.rd
    Except.ok (finalizePass rd2)

/-- Lines 146-222: the full ranking engine.  `Except.error` models the
`UnboundLocalError` escaping the function. -/
def calculate_weighted_rankings (ms : List MatchRec) (tm : List (Nat × String)) : Except String (List Standing) :=
  match rankingDataOf ms tm with
  | Except.error e => Except.error e
  | Except.ok rd => Except.ok (sortStandings (rd.map (fun e => e.2)))

/-- One iteration of the head-to-head loop (lines 230-240). -/
def h2hStep (h : List ((Nat × Nat) × List (Nat × Nat))) (m : MatchRec) : List ((Nat × Nat) × List (Nat × Nat)) :=
  match scoredPair m with
  | none => h
  | some (wid, lid) =>
    let key := (min wid lid, max wid lid)
    let h1 := updD ([] : List (Nat × Nat)) key (fun inner => updD 0 wid (fun c => c + 1) inner) h
    updD ([] : List (Nat × Nat)) key (fun inner => updD 0 lid (fun c => c + 0) inner) h1

/-- Lines 224-242: the head-to-head aggregator. -/
def calculate_head_to_head_records (ms : List MatchRec) : List ((Nat × Nat) × List (Nat × Nat)) :=
  ms.foldl h2hStep []

/-- Standings produced by a successful run (empty on the error case, which
is only used to state claims at inputs where the run is known to succeed). -/
def standingsOf (e : Except String (List Standing)) : List Standing :=
  match e with
  | Except.ok l => l
  | Except.error _ => []

/-- Sum of `total_games` over a standings list. -/
def sumTotalGames (l : List Standing) : Nat :=
  (l.map Standing.total_games).sum

/-- Sum of `total_games` over the entries of a ranking-data dict. -/
def sumTG (rd : List (Nat × Standing)) : Nat :=
  (rd.map (fun e => e.2.total_games)).sum

/-- Number of matches whose recorded winner id is `t` (what pass 1 counts
as `wins` for a tracked team). -/
def winsCount (t : Nat) (ms : List MatchRec) : Nat :=
  ms.countP (fun m => m.winner == some t)

/-- Number of matches whose computed loser is `t` (what pass 1 counts as
`losses` for a tracked team). -/
def lossCount (t : Nat) (ms : List MatchRec) : Nat :=
  ms.countP (fun m => loserOf m == some t)

/-- Canonical unordered pair key derived from a scored match
(`tuple(sorted((winner_id, loser_id)))` at line 238). -/
def pairKeyOf (m : MatchRec) : Option (Nat × Nat) :=
  (scoredPair m).map (fun p => (min p.1 p.2, max p.1 p.2))

/-- Number of decisive (scored) matches between the two teams of `key`. -/
def decisiveCount (ms : List MatchRec) (key : Nat × Nat) : Nat :=
  ms.countP (fun m => pairKeyOf m == some key)

/-- Winner id of a scored match, if any. -/
def scoredWinner (m : MatchRec) : Option Nat :=
  (scoredPair m).map Prod.fst

/-- The points accumulated for team `t` in a ranking-data dict (0 when the
team has no entry). -/
def pointsInRD (rd : List (Nat × Standing)) (t : Nat) : ℚ :=
  (getA defaultStanding t rd).points

/-- Per-match pass-2 points contribution to team `t` under a fixed winrate
table. -/
def contribOf (wr : List (Nat × ℚ)) (t : Nat) (m : MatchRec) : ℚ :=
  match scoredPair m with
  | none => 0
  | some (wid, lid) => if wid = t then pointsAwarded wr m wid lid else 0

/-- Games-accounting predicate taken from the words of the C1 claim: a
match that lists exactly two tracked opponents. -/
def listsTwoTracked (tm : List (Nat × String)) (m : MatchRec) : Bool :=
  (getOpponents m).countP (fun t => hasKey t (initRD tm)) == 2

/-- The right-hand side of the C1 claim: sum of series lengths over matches
listing exactly two tracked opponents. -/
def claimedGamesSum (ms : List MatchRec) (tm : List (Nat × String)) : Nat :=
  ((ms.filter (listsTwoTracked tm)).map MatchRec.games).sum

/-- Games-played contribution of one match as lines 169-177 actually
account it when the match has a resolvable winner: series length times the
number of tracked participants, provided exactly two opponents are listed. -/
def gamesContribution (tm : List (Nat × String)) (m : MatchRec) : Nat :=
  if (getOpponents m).length = 2 then
    m.games * (getOpponents m).countP (fun t => hasKey t (initRD tm))
  else 0

/-- Total games accounting over a match list. -/
def gamesAccounting (ms : List MatchRec) (tm : List (Nat × String)) : Nat :=
  (ms.map (gamesContribution tm)).sum

/- ### Association-list lemmas -/

theorem lookupA_updA {α β : Type} [DecidableEq α] (k k' : α) (f : β → β) (l : List (α × β)) :
    lookupA k (updA k' f l) = if k = k' then (lookupA k l).map f else lookupA k l := by
  induction l with
  | nil => simp [lookupA, updA]
  | cons e rest ih =>
    by_cases h1 : e.1 = k'
    · subst h1
      by_cases h2 : e.1 = k
      · subst h2
        simp [lookupA, updA]
      · simp [lookupA, updA, h2, Ne.symm h2]
    · by_cases h2 : e.1 = k
      · subst h2
        simp [lookupA, updA, h1]
      · simp [lookupA, updA, h1, h2, ih]

theorem updA_of_not_hasKey {α β : Type} [DecidableEq α] (k : α) (f : β → β) (l : List (α × β))
    (h : hasKey k l = false) : updA k f l = l := by
  induction l with
  | nil => rfl
  | cons e rest ih =>
    simp only [hasKey, lookupA] at h
    by_cases h1 : e.1 = k
    · simp [h1] at h
    · simp only [updA, if_neg h1]
      rw [ih]
      simp only [hasKey]
      simpa [h1] using h

theorem lookupA_append {α β : Type} [DecidableEq α] (k : α) (l1 l2 : List (α × β)) :
    lookupA k (l1 ++ l2) =
      (match lookupA k l1 with
       | some v => some v
       | none => lookupA k l2) := by
  induction l1 with
  | nil => simp [lookupA]
  | cons e rest ih =>
    by_cases h : e.1 = k <;> simp [lookupA, h, ih]

theorem lookupA_updD {α β : Type} [DecidableEq α] (d : β) (k k' : α) (f : β → β) (l : List (α × β)) :
    lookupA k (updD d k' f l) =
      if k = k' then some (f (getA d k' l)) else lookupA k l := by
  by_cases hk : hasKey k' l
  · unfold updD
    rw [if_pos hk, lookupA_updA]
    by_cases h : k = k'
    · subst h
      simp only [hasKey] at hk
      cases hlk : lookupA k l with
      | none => rw [hlk] at hk; simp at hk
      | some v => simp [getA, hlk]
    · simp [h]
  · unfold updD
    rw [if_neg hk, lookupA_append]
    cases hlk : lookupA k l with
    | some v =>
      by_cases h : k = k'
      · subst h
        exact absurd (by simp [hasKey, hlk]) hk
      · simp [h, hlk]
    | none =>
      by_cases h : k = k'
      · subst h
        simp [lookupA, getA, hlk]
      · simp [lookupA, hlk, h, Ne.symm h]

theorem hasKey_updA {α β : Type} [DecidableEq α] (k k' : α) (f : β → β) (l : List (α × β)) :
    hasKey k (updA k' f l) = hasKey k l := by
  simp only [hasKey, lookupA_updA]
  by_cases h : k = k' <;> simp [h]

theorem hasKey_updD {α β : Type} [DecidableEq α] (d : β) (k k' : α) (f : β → β) (l : List (α × β)) :
    hasKey k (updD d k' f l) = (hasKey k l || decide (k = k')) := by
  simp only [hasKey, lookupA_updD]
  by_cases h : k = k' <;> simp [h]

theorem getA_updD_same {α β : Type} [DecidableEq α] (d : β) (k : α) (f : β → β) (l : List (α × β)) :
    getA d k (updD d k f l) = f (getA d k l) := by
  simp [getA, lookupA_updD]

theorem getA_updD_other {α β : Type} [DecidableEq α] (d d' : β) (k k' : α) (f : β → β) (l : List (α × β))
    (h : k ≠ k') : getA d k (updD d' k' f l) = getA d k l := by
  simp [getA, lookupA_updD, h]

theorem getA_updA_same {α β : Type} [DecidableEq α] (d : β) (k : α) (f : β → β) (l : List (α × β))
    (hk : hasKey k l = true) : getA d k (updA k f l) = f (getA d k l) := by
  simp only [hasKey] at hk
  cases hlk : lookupA k l with
  | none => rw [hlk] at hk; simp at hk
  | some v => simp [getA, lookupA_updA, hlk]

theorem getA_updA_other {α β : Type} [DecidableEq α] (d : β) (k k' : α) (f : β → β) (l : List (α × β))
    (h : k ≠ k') : getA d k (updA k' f l) = getA d k l := by
  simp [getA, lookupA_updA, h]

theorem map_fst_updA {α β : Type} [DecidableEq α] (k : α) (f : β → β) (l : List (α × β)) :
    (updA k f l).map Prod.fst = l.map Prod.fst := by
  induction l with
  | nil => rfl
  | cons e rest ih =>
    by_cases h : e.1 = k <;> simp [updA, h, ih]

theorem hasKey_iff_mem_map_fst {α β : Type} [DecidableEq α] (k : α) (l : List (α × β)) :
    hasKey k l = true ↔ k ∈ l.map Prod.fst := by
  induction l with
  | nil => simp [hasKey, lookupA]
  | cons e rest ih =>
    simp only [hasKey, lookupA, List.map_cons, List.mem_cons]
    by_cases h : e.1 = k
    · simp [h]
    · rw [if_neg h]
      have ih' : (lookupA k rest).isSome = true ↔ k ∈ rest.map Prod.fst := ih
      rw [ih']
      constructor
      · exact Or.inr
      · rintro (hh | hh)
        · exact absurd hh.symm h
        · exact hh

theorem hasKey_congr {α β γ : Type} [DecidableEq α] (k : α) {l1 : List (α × β)} {l2 : List (α × γ)}
    (h : l1.map Prod.fst = l2.map Prod.fst) : hasKey k l1 = hasKey k l2 := by
  cases hb1 : hasKey k l1 with
  | true =>
    have hm : k ∈ l2.map Prod.fst := h ▸ (hasKey_iff_mem_map_fst k l1).mp hb1
    rw [(hasKey_iff_mem_map_fst k l2).mpr hm]
  | false =>
    cases hb2 : hasKey k l2 with
    | false => rfl
    | true =>
      have hm : k ∈ l1.map Prod.fst := h.symm ▸ (hasKey_iff_mem_map_fst k l2).mp hb2
      have := (hasKey_iff_mem_map_fst k l1).mpr hm
      rw [hb1] at this
      exact absurd this (by simp)

/- ### guardUpd lemmas -/

theorem lookupA_guardUpd (k k' : Nat) (f : Standing → Standing) (rd : List (Nat × Standing)) :
    lookupA k (guardUpd k' f rd) = if k = k' then (lookupA k rd).map f else lookupA k rd := by
  unfold guardUpd
  by_cases hk : hasKey k' rd
  · rw [if_pos hk, lookupA_updA]
  · rw [if_neg hk]
    by_cases h : k = k'
    · subst h
      simp only [hasKey] at hk
      cases hlk : lookupA k rd with
      | none => simp [hlk]
      | some v => rw [hlk] at hk; simp at hk
    · simp [h]

theorem hasKey_guardUpd (k k' : Nat) (f : Standing → Standing) (rd : List (Nat × Standing)) :
    hasKey k (guardUpd k' f rd) = hasKey k rd := by
  simp only [hasKey, lookupA_guardUpd]
  by_cases h : k = k' <;> cases hlk : lookupA k rd <;> simp [h, hlk]

theorem map_fst_guardUpd (k : Nat) (f : Standing → Standing) (rd : List (Nat × Standing)) :
    (guardUpd k f rd).map Prod.fst = rd.map Prod.fst := by
  unfold guardUpd
  by_cases hk : hasKey k rd <;> simp [hk, map_fst_updA]

theorem getA_guardUpd_proj {γ : Type} (proj : Standing → γ) (f : Standing → Standing)
    (hf : ∀ s, proj (f s) = proj s) (d : Standing) (k k' : Nat) (rd : List (Nat × Standing)) :
    proj (getA d k (guardUpd k' f rd)) = proj (getA d k rd) := by
  simp only [getA, lookupA_guardUpd]
  by_cases h : k = k'
  · cases hlk : lookupA k rd <;> simp [h, hlk, hf]
  · simp [h]

/- ### sums of total_games -/

theorem sumTG_cons (e : Nat × Standing) (rd : List (Nat × Standing)) :
    sumTG (e :: rd) = e.2.total_games + sumTG rd := by
  simp [sumTG]

theorem sumTG_updA_preserve (k : Nat) (f : Standing → Standing)
    (hf : ∀ s, (f s).total_games = s.total_games) (rd : List (Nat × Standing)) :
    sumTG (updA k f rd) = sumTG rd := by
  induction rd with
  | nil => rfl
  | cons e rest ih =>
    by_cases h : e.1 = k <;> simp [updA, h, sumTG_cons, hf, ih]

theorem sumTG_updA_add (k g : Nat) (f : Standing → Standing)
    (hf : ∀ s, (f s).total_games = s.total_games + g) (rd : List (Nat × Standing))
    (hk : hasKey k rd = true) : sumTG (updA k f rd) = sumTG rd + g := by
  induction rd with
  | nil => simp [hasKey, lookupA] at hk
  | cons e rest ih =>
    by_cases h : e.1 = k
    · simp [updA, h, sumTG_cons, hf]
      omega
    · have hk' : hasKey k rest = true := by
        simpa [hasKey, lookupA, h] using hk
      simp [updA, h, sumTG_cons, ih hk']
      omega

theorem sumTG_guardUpd_addGames (k g : Nat) (rd : List (Nat × Standing)) :
    sumTG (guardUpd k (addGames g) rd) = sumTG rd + (if hasKey k rd then g else 0) := by
  unfold guardUpd
  by_cases hk : hasKey k rd
  · rw [if_pos hk, if_pos hk, sumTG_updA_add k g (addGames g) (fun s => rfl) rd hk]
  · rw [if_neg hk, if_neg hk]
    omega

theorem sumTG_guardUpd_preserve (k : Nat) (f : Standing → Standing)
    (hf : ∀ s, (f s).total_games = s.total_games) (rd : List (Nat × Standing)) :
    sumTG (guardUpd k f rd) = sumTG rd := by
  unfold guardUpd
  by_cases hk : hasKey k rd
  · rw [if_pos hk, sumTG_updA_preserve k f hf rd]
  · rw [if_neg hk]

theorem sumTG_winLossBlock (wid : Nat) (m : MatchRec) (rd : List (Nat × Standing)) :
    sumTG (winLossBlock wid m rd) = sumTG rd := by
  unfold winLossBlock
  cases getLoser wid (getOpponents m) with
  | none => exact sumTG_guardUpd_preserve wid incWins (fun s => rfl) rd
  | some l =>
    rw [sumTG_guardUpd_preserve l incLosses (fun s => rfl),
        sumTG_guardUpd_preserve wid incWins (fun s => rfl)]

theorem sumTG_gamesBlock (g : Nat) (opponents : List Nat) (rd : List (Nat × Standing)) :
    sumTG (gamesBlock g opponents rd) =
      sumTG rd + (if opponents.length = 2 then g * opponents.countP (fun t => hasKey t rd) else 0) := by
  match opponents with
  | [] => simp [gamesBlock]
  | [t1] => simp [gamesBlock]
  | [t1, t2] =>
    rw [show gamesBlock g [t1, t2] rd = guardUpd t2 (addGames g) (guardUpd t1 (addGames g) rd) from rfl]
    rw [sumTG_guardUpd_addGames, sumTG_guardUpd_addGames,
        hasKey_guardUpd t2 t1 (addGames g) rd]
    simp only [List.countP_cons, List.countP_nil, List.length_cons, List.length_nil]
    by_cases h1 : hasKey t1 rd <;> by_cases h2 : hasKey t2 rd <;> simp [h1, h2] <;> ring
  | t1 :: t2 :: t3 :: rest => simp [gamesBlock]

theorem map_fst_gamesBlock (g : Nat) (opponents : List Nat) (rd : List (Nat × Standing)) :
    (gamesBlock g opponents rd).map Prod.fst = rd.map Prod.fst := by
  match opponents with
  | [] => rfl
  | [t1] => rfl
  | [t1, t2] =>
    rw [show gamesBlock g [t1, t2] rd = guardUpd t2 (addGames g) (guardUpd t1 (addGames g) rd) from rfl,
        map_fst_guardUpd, map_fst_guardUpd]
  | t1 :: t2 :: t3 :: rest => rfl

theorem map_fst_winLossBlock (wid : Nat) (m : MatchRec) (rd : List (Nat × Standing)) :
    (winLossBlock wid m rd).map Prod.fst = rd.map Prod.fst := by
  cases hl : getLoser wid (getOpponents m) with
  | none => simp [winLossBlock, hl, map_fst_guardUpd]
  | some l => simp [winLossBlock, hl, map_fst_guardUpd]

/- ### pass1Step case analysis -/

theorem pass1Step_winner_some (st : P1State) (m : MatchRec) (wid : Nat) (h : m.winner = some wid) :
    pass1Step st m = Except.ok
      { rd := gamesBlock m.games (getOpponents m) (winLossBlock wid m st.rd),
        opps := some (getOpponents m) } := by
  unfold pass1Step
  rw [h]

theorem pass1Step_winner_none_some (st : P1State) (m : MatchRec) (o : List Nat)
    (h : m.winner = none) (ho : st.opps = some o) :
    pass1Step st m = Except.ok { rd := gamesBlock m.games o st.rd, opps := some o } := by
  simp only [pass1Step, h, ho]

theorem pass1Step_winner_none_none (st : P1State) (m : MatchRec)
    (h : m.winner = none) (ho : st.opps = none) :
    pass1Step st m = Except.error "UnboundLocalError: local variable referenced before assignment" := by
  simp only [pass1Step, h, ho]

theorem map_fst_pass1Step (st st' : P1State) (m : MatchRec) (h : pass1Step st m = Except.ok st') :
    st'.rd.map Prod.fst = st.rd.map Prod.fst := by
  cases hw : m.winner with
  | some wid =>
    rw [pass1Step_winner_some st m wid hw] at h
    cases h
    simp [map_fst_gamesBlock, map_fst_winLossBlock]
  | none =>
    cases ho : st.opps with
    | none =>
      rw [pass1Step_winner_none_none st m hw ho] at h
      cases h
    | some o =>
      rw [pass1Step_winner_none_some st m o hw ho] at h
      cases h
      simp [map_fst_gamesBlock]

theorem pass1Go_map_fst (ms : List MatchRec) : ∀ (st st' : P1State),
    ms.foldlM pass1Step st = Except.ok st' → st'.rd.map Prod.fst = st.rd.map Prod.fst := by
  induction ms with
  | nil =>
    intro st st' h
    rw [List.foldlM_nil] at h
    cases h
    rfl
  | cons m rest ih =>
    intro st st' h
    rw [List.foldlM_cons] at h
    cases h1 : pass1Step st m with
    | error e => rw [h1] at h; exact absurd h (by simp [Bind.bind, Except.bind])
    | ok st1 =>
      rw [h1] at h
      have h2 : rest.foldlM pass1Step st1 = Except.ok st' := h
      rw [ih st1 st' h2, map_fst_pass1Step st st1 m h1]

theorem pass1_map_fst (ms : List MatchRec) (rd0 : List (Nat × Standing)) (st' : P1State)
    (h : pass1 ms rd0 = Except.ok st') : st'.rd.map Prod.fst = rd0.map Prod.fst :=
  pass1Go_map_fst ms { rd := rd0, opps := none } st' h

/- ### more total_games sum lemmas -/

theorem sumTG_append_one (rd : List (Nat × Standing)) (e : Nat × Standing) :
    sumTG (rd ++ [e]) = sumTG rd + e.2.total_games := by
  simp [sumTG]

theorem sumTG_updD (d : Standing) (k : Nat) (f : Standing → Standing)
    (hf : ∀ s, (f s).total_games = s.total_games) (rd : List (Nat × Standing)) :
    sumTG (updD d k f rd) = sumTG rd + (if hasKey k rd then 0 else (f d).total_games) := by
  unfold updD
  by_cases hk : hasKey k rd
  · rw [if_pos hk, if_pos hk, sumTG_updA_preserve k f hf rd]
    omega
  · rw [if_neg hk, if_neg hk, sumTG_append_one]

theorem sumTG_initRD_go (tm : List (Nat × String)) : ∀ rd,
    sumTG (tm.foldl (fun rd e => updD defaultStanding e.1 (fun s => { s with name := e.2 }) rd) rd) =
      sumTG rd := by
  induction tm with
  | nil => intro rd; rfl
  | cons e rest ih =>
    intro rd
    rw [List.foldl_cons, ih, sumTG_updD defaultStanding e.1 (fun s => { s with name := e.2 }) (fun s => rfl) rd]
    split <;> rfl

theorem sumTG_initRD (tm : List (Nat × String)) : sumTG (initRD tm) = 0 :=
  sumTG_initRD_go tm []

theorem sumTG_pass2Step (wr : List (Nat × ℚ)) (rd : List (Nat × Standing)) (m : MatchRec) :
    sumTG (pass2Step wr rd m) = sumTG rd := by
  cases hp : scoredPair m with
  | none => simp [pass2Step, hp]
  | some p =>
    obtain ⟨wid, lid⟩ := p
    simp only [pass2Step, hp]
    rw [sumTG_updD defaultStanding wid (addPoints (pointsAwarded wr m wid lid)) (fun s => rfl) rd]
    split <;> rfl

theorem sumTG_pass2Go (ms : List MatchRec) : ∀ (wr : List (Nat × ℚ)) (rd : List (Nat × Standing)),
    sumTG (ms.foldl (pass2Step wr) rd) = sumTG rd := by
  induction ms with
  | nil => intro wr rd; rfl
  | cons m rest ih =>
    intro wr rd
    rw [List.foldl_cons, ih, sumTG_pass2Step]

theorem sumTG_finalizePass (rd : List (Nat × Standing)) : sumTG (finalizePass rd) = sumTG rd := by
  unfold finalizePass sumTG
  rw [List.map_map]
  apply congrArg List.sum
  apply List.map_congr_left
  intro e _
  by_cases h : e.2.total_games > 0 <;> simp [finalizeStanding, h]

/- ### value-predicate preservation -/

theorem forall_mem_updA_pred {α β : Type} [DecidableEq α] (P : β → Prop) (k : α) (f : β → β)
    (l : List (α × β)) :
    (∀ e ∈ l, P e.2) → (∀ b, P b → P (f b)) → ∀ e ∈ updA k f l, P e.2 := by
  induction l with
  | nil => intro _ _ e he; simp [updA] at he
  | cons ehd rest ih =>
    intro hl hf e he
    by_cases h : ehd.1 = k
    · rw [updA, if_pos h] at he
      rcases List.mem_cons.mp he with h1 | h1
      · rw [h1]
        exact hf _ (hl ehd (List.mem_cons.mpr (Or.inl rfl)))
      · exact hl e (List.mem_cons.mpr (Or.inr h1))
    · rw [updA, if_neg h] at he
      rcases List.mem_cons.mp he with h1 | h1
      · rw [h1]
        exact hl ehd (List.mem_cons.mpr (Or.inl rfl))
      · exact ih (fun x hx => hl x (List.mem_cons.mpr (Or.inr hx))) hf e h1

theorem forall_mem_updD_pred {α β : Type} [DecidableEq α] (P : β → Prop) (d : β) (k : α)
    (f : β → β) (l : List (α × β)) :
    (∀ e ∈ l, P e.2) → (∀ b, P b → P (f b)) → P (f d) → ∀ e ∈ updD d k f l, P e.2 := by
  intro hl hf hd e he
  unfold updD at he
  by_cases hk : hasKey k l
  · rw [if_pos hk] at he
    exact forall_mem_updA_pred P k f l hl hf e he
  · rw [if_neg hk] at he
    rcases List.mem_append.mp he with h1 | h1
    · exact hl e h1
    · rw [List.mem_singleton.mp h1]
      exact hd

theorem forall_mem_guardUpd_pred (P : Standing → Prop) (k : Nat) (f : Standing → Standing)
    (rd : List (Nat × Standing)) :
    (∀ e ∈ rd, P e.2) → (∀ b, P b → P (f b)) → ∀ e ∈ guardUpd k f rd, P e.2 := by
  intro hl hf e he
  unfold guardUpd at he
  by_cases hk : hasKey k rd
  · rw [if_pos hk] at he
    exact forall_mem_updA_pred P k f rd hl hf e he
  · rw [if_neg hk] at he
    exact hl e he

theorem forall_mem_winLossBlock_pred (P : Standing → Prop) (wid : Nat) (m : MatchRec)
    (rd : List (Nat × Standing)) (hl : ∀ e ∈ rd, P e.2)
    (hw : ∀ b, P b → P (incWins b)) (hlo : ∀ b, P b → P (incLosses b)) :
    ∀ e ∈ winLossBlock wid m rd, P e.2 := by
  unfold winLossBlock
  cases getLoser wid (getOpponents m) with
  | none => exact forall_mem_guardUpd_pred P wid incWins rd hl hw
  | some l =>
    exact forall_mem_guardUpd_pred P l incLosses _
      (forall_mem_guardUpd_pred P wid incWins rd hl hw) hlo

theorem forall_mem_gamesBlock_pred (P : Standing → Prop) (g : Nat) (opponents : List Nat)
    (rd : List (Nat × Standing)) (hl : ∀ e ∈ rd, P e.2)
    (hg : ∀ b, P b → P (addGames g b)) :
    ∀ e ∈ gamesBlock g opponents rd, P e.2 := by
  match opponents with
  | [] => exact hl
  | [t1] => exact hl
  | [t1, t2] =>
    exact forall_mem_guardUpd_pred P t2 (addGames g) _
      (forall_mem_guardUpd_pred P t1 (addGames g) rd hl hg) hg
  | t1 :: t2 :: t3 :: rest => exact hl

theorem forall_mem_pass1Step_pred (P : Standing → Prop) (st st' : P1State) (m : MatchRec)
    (h : pass1Step st m = Except.ok st') (hl : ∀ e ∈ st.rd, P e.2)
    (hw : ∀ b, P b → P (incWins b)) (hlo : ∀ b, P b → P (incLosses b))
    (hg : ∀ b g, P b → P (addGames g b)) :
    ∀ e ∈ st'.rd, P e.2 := by
  cases hwin : m.winner with
  | some wid =>
    rw [pass1Step_winner_some st m wid hwin] at h
    cases h
    exact forall_mem_gamesBlock_pred P m.games (getOpponents m) _
      (forall_mem_winLossBlock_pred P wid m st.rd hl hw hlo) (fun b => hg b m.games)
  | none =>
    cases ho : st.opps with
    | none =>
      rw [pass1Step_winner_none_none st m hwin ho] at h
      cases h
    | some o =>
      rw [pass1Step_winner_none_some st m o hwin ho] at h
      cases h
      exact forall_mem_gamesBlock_pred P m.games o st.rd hl (fun b => hg b m.games)

theorem forall_mem_pass1Go_pred (P : Standing → Prop) (ms : List MatchRec) :
    ∀ (st st' : P1State), ms.foldlM pass1Step st = Except.ok st' →
    (∀ e ∈ st.rd, P e.2) →
    (∀ b, P b → P (incWins b)) → (∀ b, P b → P (incLosses b)) → (∀ b g, P b → P (addGames g b)) →
    ∀ e ∈ st'.rd, P e.2 := by
  induction ms with
  | nil =>
    intro st st' h hl _ _ _
    rw [List.foldlM_nil] at h
    cases h
    exact hl
  | cons m rest ih =>
    intro st st' h hl hw hlo hg
    rw [List.foldlM_cons] at h
    cases h1 : pass1Step st m with
    | error e => rw [h1] at h; exact absurd h (by simp [Bind.bind, Except.bind])
    | ok st1 =>
      rw [h1] at h
      exact ih st1 st' h (forall_mem_pass1Step_pred P st st1 m h1 hl hw hlo hg) hw hlo hg

/- ### lookups through value-maps and field getters -/

theorem lookupA_map_snd {α β γ : Type} [DecidableEq α] (F : β → γ) (k : α) (l : List (α × β)) :
    lookupA k (l.map (fun e => (e.1, F e.2))) = (lookupA k l).map F := by
  induction l with
  | nil => rfl
  | cons e rest ih =>
    by_cases h : e.1 = k <;> simp [lookupA, h, ih]

theorem wrGet_winratesOf (rd : List (Nat × Standing)) (t : Nat) :
    wrGet (winratesOf rd) t =
      (match lookupA t rd with
       | some s => winrateOf s
       | none => 0) := by
  unfold wrGet winratesOf getA
  rw [lookupA_map_snd]
  cases lookupA t rd <;> rfl

theorem lookupA_finalizePass (rd : List (Nat × Standing)) (t : Nat) :
    lookupA t (finalizePass rd) = (lookupA t rd).map finalizeStanding := by
  unfold finalizePass
  rw [lookupA_map_snd]

theorem wins_guardUpd_incWins (k t : Nat) (rd : List (Nat × Standing)) :
    (getA defaultStanding t (guardUpd k incWins rd)).wins =
      (getA defaultStanding t rd).wins + (if t = k ∧ hasKey t rd then 1 else 0) := by
  simp only [getA, lookupA_guardUpd]
  by_cases h : t = k
  · subst h
    cases hlk : lookupA t rd with
    | none => simp [hlk, hasKey]
    | some v => simp [hlk, hasKey, incWins]
  · simp [h]

theorem losses_guardUpd_incLosses (k t : Nat) (rd : List (Nat × Standing)) :
    (getA defaultStanding t (guardUpd k incLosses rd)).losses =
      (getA defaultStanding t rd).losses + (if t = k ∧ hasKey t rd then 1 else 0) := by
  simp only [getA, lookupA_guardUpd]
  by_cases h : t = k
  · subst h
    cases hlk : lookupA t rd with
    | none => simp [hlk, hasKey]
    | some v => simp [hlk, hasKey, incLosses]
  · simp [h]

theorem getA_gamesBlock_proj {γ : Type} (proj : Standing → γ)
    (hg : ∀ g s, proj (addGames g s) = proj s) (g : Nat) (opponents : List Nat)
    (d : Standing) (t : Nat) (rd : List (Nat × Standing)) :
    proj (getA d t (gamesBlock g opponents rd)) = proj (getA d t rd) := by
  match opponents with
  | [] => rfl
  | [t1] => rfl
  | [t1, t2] =>
    rw [show gamesBlock g [t1, t2] rd = guardUpd t2 (addGames g) (guardUpd t1 (addGames g) rd) from rfl,
        getA_guardUpd_proj proj (addGames g) (hg g), getA_guardUpd_proj proj (addGames g) (hg g)]
  | t1 :: t2 :: t3 :: rest => rfl

theorem getA_winLossBlock_proj {γ : Type} (proj : Standing → γ)
    (hw : ∀ s, proj (incWins s) = proj s) (hl : ∀ s, proj (incLosses s) = proj s)
    (wid : Nat) (m : MatchRec) (d : Standing) (t : Nat) (rd : List (Nat × Standing)) :
    proj (getA d t (winLossBlock wid m rd)) = proj (getA d t rd) := by
  unfold winLossBlock
  cases getLoser wid (getOpponents m) with
  | none => exact getA_guardUpd_proj proj incWins hw d t wid rd
  | some l =>
    rw [getA_guardUpd_proj proj incLosses hl, getA_guardUpd_proj proj incWins hw]

theorem wins_winLossBlock (wid : Nat) (m : MatchRec) (rd : List (Nat × Standing)) (t : Nat) :
    (getA defaultStanding t (winLossBlock wid m rd)).wins =
      (getA defaultStanding t rd).wins + (if t = wid ∧ hasKey t rd then 1 else 0) := by
  unfold winLossBlock
  cases getLoser wid (getOpponents m) with
  | none => exact wins_guardUpd_incWins wid t rd
  | some l =>
    rw [getA_guardUpd_proj Standing.wins incLosses (fun s => rfl), wins_guardUpd_incWins]

theorem losses_winLossBlock (wid : Nat) (m : MatchRec) (rd : List (Nat × Standing)) (t : Nat) :
    (getA defaultStanding t (winLossBlock wid m rd)).losses =
      (getA defaultStanding t rd).losses +
        (if getLoser wid (getOpponents m) = some t ∧ hasKey t rd then 1 else 0) := by
  unfold winLossBlock
  cases hl : getLoser wid (getOpponents m) with
  | none =>
    rw [getA_guardUpd_proj Standing.losses incWins (fun s => rfl)]
    simp
  | some l =>
    rw [losses_guardUpd_incLosses, getA_guardUpd_proj Standing.losses incWins (fun s => rfl),
        hasKey_guardUpd]
    by_cases h : t = l
    · subst h
      simp
    · simp [h, Ne.symm h]

/- ### wins/losses counting through pass 1 -/

theorem wins_pass1Step (st st' : P1State) (m : MatchRec) (h : pass1Step st m = Except.ok st')
    (t : Nat) (ht : hasKey t st.rd = true) :
    (getA defaultStanding t st'.rd).wins =
      (getA defaultStanding t st.rd).wins + (if m.winner == some t then 1 else 0) := by
  cases hw : m.winner with
  | some wid =>
    rw [pass1Step_winner_some st m wid hw] at h
    cases h
    rw [show ({ rd := gamesBlock m.games (getOpponents m) (winLossBlock wid m st.rd),
                opps := some (getOpponents m) } : P1State).rd =
          gamesBlock m.games (getOpponents m) (winLossBlock wid m st.rd) from rfl,
        getA_gamesBlock_proj Standing.wins (fun g s => rfl), wins_winLossBlock]
    by_cases h : t = wid
    · subst h
      simp [ht]
    · simp [h, Ne.symm h]
  | none =>
    cases ho : st.opps with
    | none =>
      rw [pass1Step_winner_none_none st m hw ho] at h
      cases h
    | some o =>
      rw [pass1Step_winner_none_some st m o hw ho] at h
      cases h
      rw [show ({ rd := gamesBlock m.games o st.rd, opps := some o } : P1State).rd =
            gamesBlock m.games o st.rd from rfl,
          getA_gamesBlock_proj Standing.wins (fun g s => rfl)]
      simp

theorem losses_pass1Step (st st' : P1State) (m : MatchRec) (h : pass1Step st m = Except.ok st')
    (t : Nat) (ht : hasKey t st.rd = true) :
    (getA defaultStanding t st'.rd).losses =
      (getA defaultStanding t st.rd).losses + (if loserOf m == some t then 1 else 0) := by
  cases hw : m.winner with
  | some wid =>
    rw [pass1Step_winner_some st m wid hw] at h
    cases h
    rw [show ({ rd := gamesBlock m.games (getOpponents m) (winLossBlock wid m st.rd),
                opps := some (getOpponents m) } : P1State).rd =
          gamesBlock m.games (getOpponents m) (winLossBlock wid m st.rd) from rfl,
        getA_gamesBlock_proj Standing.losses (fun g s => rfl), losses_winLossBlock]
    rw [show loserOf m = getLoser wid (getOpponents m) by unfold loserOf; rw [hw]]
    cases hl : getLoser wid (getOpponents m) with
    | none => simp
    | some l =>
      by_cases h : l = t
      · subst h
        simp [ht]
      · simp [h]
  | none =>
    cases ho : st.opps with
    | none =>
      rw [pass1Step_winner_none_none st m hw ho] at h
      cases h
    | some o =>
      rw [pass1Step_winner_none_some st m o hw ho] at h
      cases h
      rw [show ({ rd := gamesBlock m.games o st.rd, opps := some o } : P1State).rd =
            gamesBlock m.games o st.rd from rfl,
          getA_gamesBlock_proj Standing.losses (fun g s => rfl)]
      rw [show loserOf m = none by unfold loserOf; rw [hw]]
      simp

theorem hasKey_pass1Step (st st' : P1State) (m : MatchRec) (h : pass1Step st m = Except.ok st')
    (t : Nat) : hasKey t st'.rd = hasKey t st.rd :=
  hasKey_congr t (map_fst_pass1Step st st' m h)

theorem wins_pass1Go (ms : List MatchRec) : ∀ (st st' : P1State),
    ms.foldlM pass1Step st = Except.ok st' → ∀ t, hasKey t st.rd = true →
    (getA defaultStanding t st'.rd).wins = (getA defaultStanding t st.rd).wins + winsCount t ms := by
  induction ms with
  | nil =>
    intro st st' h t ht
    rw [List.foldlM_nil] at h
    cases h
    simp [winsCount]
  | cons m rest ih =>
    intro st st' h t ht
    rw [List.foldlM_cons] at h
    cases h1 : pass1Step st m with
    | error e => rw [h1] at h; exact absurd h (by simp [Bind.bind, Except.bind])
    | ok st1 =>
      rw [h1] at h
      have hkey : hasKey t st1.rd = true := (hasKey_pass1Step st st1 m h1 t).trans ht
      rw [ih st1 st' h t hkey, wins_pass1Step st st1 m h1 t ht]
      unfold winsCount
      rw [List.countP_cons]
      omega

theorem losses_pass1Go (ms : List MatchRec) : ∀ (st st' : P1State),
    ms.foldlM pass1Step st = Except.ok st' → ∀ t, hasKey t st.rd = true →
    (getA defaultStanding t st'.rd).losses = (getA defaultStanding t st.rd).losses + lossCount t ms := by
  induction ms with
  | nil =>
    intro st st' h t ht
    rw [List.foldlM_nil] at h
    cases h
    simp [lossCount]
  | cons m rest ih =>
    intro st st' h t ht
    rw [List.foldlM_cons] at h
    cases h1 : pass1Step st m with
    | error e => rw [h1] at h; exact absurd h (by simp [Bind.bind, Except.bind])
    | ok st1 =>
      rw [h1] at h
      have hkey : hasKey t st1.rd = true := (hasKey_pass1Step st st1 m h1 t).trans ht
      rw [ih st1 st' h t hkey, losses_pass1Step st st1 m h1 t ht]
      unfold lossCount
      rw [List.countP_cons]
      omega

theorem getA_pass1Go_proj {γ : Type} (proj : Standing → γ)
    (hw : ∀ s, proj (incWins s) = proj s) (hl : ∀ s, proj (incLosses s) = proj s)
    (hg : ∀ g s, proj (addGames g s) = proj s) (ms : List MatchRec) : ∀ (st st' : P1State),
    ms.foldlM pass1Step st = Except.ok st' → ∀ t,
    proj (getA defaultStanding t st'.rd) = proj (getA defaultStanding t st.rd) := by
  induction ms with
  | nil =>
    intro st st' h t
    rw [List.foldlM_nil] at h
    cases h
    rfl
  | cons m rest ih =>
    intro st st' h t
    rw [List.foldlM_cons] at h
    cases h1 : pass1Step st m with
    | error e => rw [h1] at h; exact absurd h (by simp [Bind.bind, Except.bind])
    | ok st1 =>
      rw [h1] at h
      rw [ih st1 st' h t]
      cases hw1 : m.winner with
      | some wid =>
        rw [pass1Step_winner_some st m wid hw1] at h1
        cases h1
        rw [show ({ rd := gamesBlock m.games (getOpponents m) (winLossBlock wid m st.rd),
                    opps := some (getOpponents m) } : P1State).rd =
              gamesBlock m.games (getOpponents m) (winLossBlock wid m st.rd) from rfl,
            getA_gamesBlock_proj proj hg, getA_winLossBlock_proj proj hw hl]
      | none =>
        cases ho : st.opps with
        | none =>
          rw [pass1Step_winner_none_none st m hw1 ho] at h1
          cases h1
        | some o =>
          rw [pass1Step_winner_none_some st m o hw1 ho] at h1
          cases h1
          rw [show ({ rd := gamesBlock m.games o st.rd, opps := some o } : P1State).rd =
                gamesBlock m.games o st.rd from rfl,
              getA_gamesBlock_proj proj hg]

/- ### pass 1 on all-decisive inputs: success and games accounting -/

/-- Per-match games contribution measured against the key set of `rd`. -/
def gamesContribRD (rd : List (Nat × Standing)) (m : MatchRec) : Nat :=
  if (getOpponents m).length = 2 then
    m.games * (getOpponents m).countP (fun t => hasKey t rd)
  else 0

theorem gamesContribRD_congr (m : MatchRec) {rd1 rd2 : List (Nat × Standing)}
    (h : rd1.map Prod.fst = rd2.map Prod.fst) : gamesContribRD rd1 m = gamesContribRD rd2 m := by
  unfold gamesContribRD
  by_cases hlen : (getOpponents m).length = 2
  · rw [if_pos hlen, if_pos hlen]
    congr 1
    apply List.countP_congr
    intro t _
    rw [hasKey_congr t h]
  · rw [if_neg hlen, if_neg hlen]

theorem pass1Go_decisive (ms : List MatchRec) : ∀ (st : P1State),
    (∀ m ∈ ms, m.winner.isSome = true) →
    ∃ st', ms.foldlM pass1Step st = Except.ok st' ∧
      sumTG st'.rd = sumTG st.rd + (ms.map (gamesContribRD st.rd)).sum := by
  induction ms with
  | nil =>
    intro st _
    refine ⟨st, ?_, ?_⟩
    · rw [List.foldlM_nil]
      rfl
    · simp
  | cons m rest ih =>
    intro st hd
    obtain ⟨wid, hw⟩ := Option.isSome_iff_exists.mp (hd m (List.mem_cons.mpr (Or.inl rfl)))
    have hstep := pass1Step_winner_some st m wid hw
    obtain ⟨st', hrest, hsum⟩ :=
      ih { rd := gamesBlock m.games (getOpponents m) (winLossBlock wid m st.rd),
           opps := some (getOpponents m) }
        (fun x hx => hd x (List.mem_cons.mpr (Or.inr hx)))
    have hkeys : (gamesBlock m.games (getOpponents m) (winLossBlock wid m st.rd)).map Prod.fst =
        st.rd.map Prod.fst := by
      rw [map_fst_gamesBlock, map_fst_winLossBlock]
    refine ⟨st', ?_, ?_⟩
    · rw [List.foldlM_cons, hstep]
      exact hrest
    · rw [hsum]
      have h1 : sumTG (gamesBlock m.games (getOpponents m) (winLossBlock wid m st.rd)) =
          sumTG st.rd + gamesContribRD st.rd m := by
        rw [sumTG_gamesBlock, sumTG_winLossBlock]
        unfold gamesContribRD
        by_cases hlen : (getOpponents m).length = 2
        · rw [if_pos hlen, if_pos hlen]
          congr 2
          apply List.countP_congr
          intro t _
          rw [hasKey_congr t (map_fst_winLossBlock wid m st.rd)]
        · rw [if_neg hlen, if_neg hlen]
      have h2 : rest.map (gamesContribRD (gamesBlock m.games (getOpponents m) (winLossBlock wid m st.rd))) =
          rest.map (gamesContribRD st.rd) := by
        apply List.map_congr_left
        intro x _
        exact gamesContribRD_congr x hkeys
      rw [show ({ rd := gamesBlock m.games (getOpponents m) (winLossBlock wid m st.rd),
                  opps := some (getOpponents m) } : P1State).rd =
            gamesBlock m.games (getOpponents m) (winLossBlock wid m st.rd) from rfl] at hsum ⊢
      rw [h1, h2, List.map_cons, List.sum_cons]
      omega

/- ### pass 2: points accounting and key sets -/

theorem pointsInRD_pass2Step (wr : List (Nat × ℚ)) (rd : List (Nat × Standing)) (m : MatchRec) (t : Nat) :
    pointsInRD (pass2Step wr rd m) t = pointsInRD rd t + contribOf wr t m := by
  unfold pointsInRD contribOf
  cases hp : scoredPair m with
  | none => simp [pass2Step, hp]
  | some p =>
    obtain ⟨wid, lid⟩ := p
    simp only [pass2Step, hp]
    by_cases h : wid = t
    · subst h
      rw [getA_updD_same]
      simp [addPoints]
    · rw [getA_updD_other defaultStanding defaultStanding t wid _ rd (fun hc => h hc.symm)]
      simp [h]

theorem pointsInRD_pass2Go (ms : List MatchRec) : ∀ (wr : List (Nat × ℚ)) (rd : List (Nat × Standing)) (t : Nat),
    pointsInRD (ms.foldl (pass2Step wr) rd) t = pointsInRD rd t + (ms.map (contribOf wr t)).sum := by
  induction ms with
  | nil => intro wr rd t; simp
  | cons m rest ih =>
    intro wr rd t
    rw [List.foldl_cons, ih, pointsInRD_pass2Step, List.map_cons, List.sum_cons]
    ring

theorem hasKey_pass2Step (wr : List (Nat × ℚ)) (rd : List (Nat × Standing)) (m : MatchRec) (t : Nat) :
    hasKey t (pass2Step wr rd m) = (hasKey t rd || (scoredWinner m == some t)) := by
  cases hp : scoredPair m with
  | none => simp [pass2Step, hp, scoredWinner]
  | some p =>
    obtain ⟨wid, lid⟩ := p
    simp only [pass2Step, hp, scoredWinner, Option.map_some]
    rw [hasKey_updD]
    by_cases h : t = wid
    · subst h
      simp
    · simp [h, Ne.symm h]

theorem hasKey_pass2Go (ms : List MatchRec) : ∀ (wr : List (Nat × ℚ)) (rd : List (Nat × Standing)) (t : Nat),
    hasKey t (ms.foldl (pass2Step wr) rd) =
      (hasKey t rd || ms.any (fun m => scoredWinner m == some t)) := by
  induction ms with
  | nil => intro wr rd t; simp
  | cons m rest ih =>
    intro wr rd t
    rw [List.foldl_cons, ih, hasKey_pass2Step, List.any_cons, Bool.or_assoc]

theorem lookupA_pass2Step_other (wr : List (Nat × ℚ)) (rd : List (Nat × Standing)) (m : MatchRec)
    (t : Nat) (h : scoredWinner m ≠ some t) :
    lookupA t (pass2Step wr rd m) = lookupA t rd := by
  cases hp : scoredPair m with
  | none => simp [pass2Step, hp]
  | some p =>
    obtain ⟨wid, lid⟩ := p
    have hwid : t ≠ wid := by
      intro hc
      exact h (by simp [scoredWinner, hp, hc])
    simp only [pass2Step, hp]
    rw [lookupA_updD, if_neg hwid]

theorem lookupA_pass2Go_other (ms : List MatchRec) : ∀ (wr : List (Nat × ℚ)) (rd : List (Nat × Standing)) (t : Nat),
    (∀ m ∈ ms, scoredWinner m ≠ some t) →
    lookupA t (ms.foldl (pass2Step wr) rd) = lookupA t rd := by
  induction ms with
  | nil => intro wr rd t _; rfl
  | cons m rest ih =>
    intro wr rd t hm
    rw [List.foldl_cons, ih _ _ _ (fun x hx => hm x (List.mem_cons.mpr (Or.inr hx))),
        lookupA_pass2Step_other wr rd m t (hm m (List.mem_cons.mpr (Or.inl rfl)))]

/- ### numeric bounds for the configuration tables -/

theorem leagueWeightGet_eq_one (l : Option Nat) : leagueWeightGet l = 1 := by
  cases l with
  | none => rfl
  | some lid => rfl

theorem seriesMultGet_bounds (n : Nat) : 1 ≤ seriesMultGet n ∧ seriesMultGet n ≤ 3/2 := by
  by_cases h1 : (1 : Nat) = n
  · subst h1
    unfold seriesMultGet SERIES_MULTIPLIERS
    norm_num [getA, lookupA]
  · by_cases h3 : (3 : Nat) = n
    · subst h3
      unfold seriesMultGet SERIES_MULTIPLIERS
      norm_num [getA, lookupA]
    · by_cases h5 : (5 : Nat) = n
      · subst h5
        unfold seriesMultGet SERIES_MULTIPLIERS
        norm_num [getA, lookupA]
      · unfold seriesMultGet SERIES_MULTIPLIERS
        norm_num [getA, lookupA, h1, h3, h5]

theorem winrateOf_bounds (s : Standing) : 0 ≤ winrateOf s ∧ winrateOf s ≤ 1 := by
  unfold winrateOf
  by_cases h : s.wins + s.losses > 0
  · rw [if_pos h]
    have hpos : (0 : ℚ) < (s.wins : ℚ) + (s.losses : ℚ) := by
      have : (0 : ℚ) < ((s.wins + s.losses : Nat) : ℚ) := by
        exact_mod_cast h
      push_cast at this
      linarith
    constructor
    · positivity
    · rw [div_le_one hpos]
      have : (0 : ℚ) ≤ (s.losses : ℚ) := by positivity
      linarith
  · rw [if_neg h]
    norm_num

theorem wrGet_winratesOf_bounds (rd : List (Nat × Standing)) (t : Nat) :
    0 ≤ wrGet (winratesOf rd) t ∧ wrGet (winratesOf rd) t ≤ 1 := by
  rw [wrGet_winratesOf]
  cases lookupA t rd with
  | none => norm_num
  | some s => exact winrateOf_bounds s

theorem winrateMultiplier_bounds (ww lw : ℚ) (h1 : 0 ≤ ww) (h2 : lw ≤ 1) :
    1 ≤ winrateMultiplier ww lw ∧ winrateMultiplier ww lw ≤ 2 := by
  unfold winrateMultiplier
  by_cases h : ww < lw
  · rw [if_pos h]
    constructor <;> linarith
  · rw [if_neg h]
    norm_num

theorem pointsAwarded_bounds (wr : List (Nat × Standing)) (m : MatchRec) (wid lid : Nat) :
    100 ≤ pointsAwarded (winratesOf wr) m wid lid ∧ pointsAwarded (winratesOf wr) m wid lid ≤ 300 := by
  unfold pointsAwarded BASE_WIN_POINTS
  rw [leagueWeightGet_eq_one]
  obtain ⟨hs1, hs2⟩ := seriesMultGet_bounds m.games
  obtain ⟨hww1, hww2⟩ := wrGet_winratesOf_bounds wr wid
  obtain ⟨hlw1, hlw2⟩ := wrGet_winratesOf_bounds wr lid
  obtain ⟨hm1, hm2⟩ := winrateMultiplier_bounds (wrGet (winratesOf wr) wid) (wrGet (winratesOf wr) lid) hww1 hlw2
  constructor
  · have h := mul_le_mul hs1 hm1 (by norm_num) (by linarith)
    nlinarith
  · have h := mul_le_mul hs2 hm2 (by linarith) (by norm_num)
    nlinarith

/- ### invariants through initialization and pass 2 -/

theorem forall_mem_initRD_go (P : Standing → Prop) (tm : List (Nat × String))
    (hP : ∀ s nm, P s → P { s with name := nm }) (hd : ∀ nm, P { defaultStanding with name := nm }) :
    ∀ rd, (∀ e ∈ rd, P e.2) →
    ∀ e ∈ tm.foldl (fun rd e => updD defaultStanding e.1 (fun s => { s with name := e.2 }) rd) rd, P e.2 := by
  induction tm with
  | nil => intro rd h; exact h
  | cons x rest ih =>
    intro rd h
    rw [List.foldl_cons]
    exact ih _ (forall_mem_updD_pred P defaultStanding x.1 _ rd h (fun b hb => hP b x.2 hb) (hd x.2))

theorem forall_mem_initRD (P : Standing → Prop) (tm : List (Nat × String))
    (hP : ∀ s nm, P s → P { s with name := nm }) (hd : ∀ nm, P { defaultStanding with name := nm }) :
    ∀ e ∈ initRD tm, P e.2 :=
  forall_mem_initRD_go P tm hP hd [] (by intro e he; simp at he)

theorem forall_mem_pass2Step_pred (P : Standing → Prop) (wr : List (Nat × ℚ))
    (rd : List (Nat × Standing)) (m : MatchRec) (hl : ∀ e ∈ rd, P e.2)
    (hp : ∀ p b, P b → P (addPoints p b)) (hpd : ∀ p, P (addPoints p defaultStanding)) :
    ∀ e ∈ pass2Step wr rd m, P e.2 := by
  cases hsp : scoredPair m with
  | none => simpa [pass2Step, hsp] using hl
  | some p =>
    obtain ⟨wid, lid⟩ := p
    simp only [pass2Step, hsp]
    exact forall_mem_updD_pred P defaultStanding wid _ rd hl
      (fun b hb => hp _ b hb) (hpd _)

theorem forall_mem_pass2Go_pred (P : Standing → Prop) (ms : List MatchRec) :
    ∀ (wr : List (Nat × ℚ)) (rd : List (Nat × Standing)), (∀ e ∈ rd, P e.2) →
    (∀ p b, P b → P (addPoints p b)) → (∀ p, P (addPoints p defaultStanding)) →
    ∀ e ∈ ms.foldl (pass2Step wr) rd, P e.2 := by
  induction ms with
  | nil => intro wr rd hl _ _; exact hl
  | cons m rest ih =>
    intro wr rd hl hp hpd
    rw [List.foldl_cons]
    exact ih wr _ (forall_mem_pass2Step_pred P wr rd m hl hp hpd) hp hpd

/-- Every entry of the ranking data that reaches pass 3 still has
`normalized_points = 0`: nothing before the final pass writes it. -/
theorem np_zero_before_finalize (ms : List MatchRec) (tm : List (Nat × String)) (st : P1State)
    (h : pass1 ms (initRD tm) = Except.ok st) :
    ∀ e ∈ ms.foldl (pass2Step (winratesOf st.rd)) st.rd, e.2.normalized_points = 0 := by
  apply forall_mem_pass2Go_pred (fun s => s.normalized_points = 0) ms (winratesOf st.rd) st.rd
  · apply forall_mem_pass1Go_pred (fun s => s.normalized_points = 0) ms { rd := initRD tm, opps := none } st h
    · exact forall_mem_initRD (fun s => s.normalized_points = 0) tm (fun s nm hs => hs) (fun nm => rfl)
    · exact fun b hb => hb
    · exact fun b hb => hb
    · exact fun b g hb => hb
  · exact fun p b hb => hb
  · exact fun p => rfl

/- ### composing the whole engine -/

theorem calculate_eq_of_pass1 (ms : List MatchRec) (tm : List (Nat × String)) (st : P1State)
    (h : pass1 ms (initRD tm) = Except.ok st) :
    calculate_weighted_rankings ms tm =
      Except.ok (sortStandings ((finalizePass (ms.foldl (pass2Step (winratesOf st.rd)) st.rd)).map (fun e => e.2))) := by
  unfold calculate_weighted_rankings rankingDataOf
  rw [h]

theorem calculate_error_of_pass1 (ms : List MatchRec) (tm : List (Nat × String)) (e : String)
    (h : pass1 ms (initRD tm) = Except.error e) :
    calculate_weighted_rankings ms tm = Except.error e := by
  unfold calculate_weighted_rankings rankingDataOf
  rw [h]

theorem mem_standings (ms : List MatchRec) (tm : List (Nat × String)) (st : P1State)
    (h : pass1 ms (initRD tm) = Except.ok st) (l : List Standing)
    (hl : calculate_weighted_rankings ms tm = Except.ok l) (s : Standing) (hs : s ∈ l) :
    ∃ e ∈ ms.foldl (pass2Step (winratesOf st.rd)) st.rd, s = finalizeStanding e.2 := by
  rw [calculate_eq_of_pass1 ms tm st h] at hl
  cases hl
  unfold sortStandings at hs
  rw [List.mem_insertionSort] at hs
  obtain ⟨e, he, hse⟩ := List.mem_map.mp hs
  obtain ⟨e2, he2, hee⟩ := List.mem_map.mp he
  refine ⟨e2, he2, ?_⟩
  rw [← hse, ← hee]

theorem sumTotalGames_sortStandings (l : List Standing) :
    sumTotalGames (sortStandings l) = sumTotalGames l := by
  unfold sumTotalGames sortStandings
  exact List.Perm.sum_eq (List.Perm.map Standing.total_games (List.perm_insertionSort rankGE l))

theorem sumTotalGames_values (rd : List (Nat × Standing)) :
    sumTotalGames (rd.map (fun e => e.2)) = sumTG rd := by
  unfold sumTotalGames sumTG
  rw [List.map_map]
  rfl


/-- Witness inputs for the amended C1: two tracked teams, one decisive
best-of-3 match. -/
def claim1w_ms : List MatchRec :=
  [{ winner := some 1, opponentsRaw := [some 1, some 2], games := 3, league := none }]

def claim1w_tm : List (Nat × String) := [(1, "A"), (2, "B")]

/- ### Claim C1 -/

/-- Counterexample input for C1: one decisive match whose two listed
opponents are team 1 (tracked) and team 2 (untracked). -/
def claim1ms : List MatchRec :=
  [{ winner := some 1, opponentsRaw := [some 1, some 2], games := 3, league := none }]

def claim1tm : List (Nat × String) := [(1, "A")]

/-- C1 counterexample: the run completes, the per-team `total_games` sum is
3 (the tracked participant was credited), but the claim predicts twice the
series-length sum over matches with exactly two tracked opponents, which is
0 here — so the claimed equality fails on this input. -/
theorem claim1_counterexample :
    (calculate_weighted_rankings claim1ms claim1tm).isOk = true ∧
    sumTotalGames (standingsOf (calculate_weighted_rankings claim1ms claim1tm)) = 3 ∧
    2 * claimedGamesSum claim1ms claim1tm = 0 := by
  refine ⟨?_, ?_, ?_⟩ <;> decide

/-- C1 (amended): when every match has a resolvable winner, the sum of
`total_games` over all produced standings equals the sum over matches
listing exactly two opponents of series length times the number of tracked
participants (hence twice the series length when both are tracked). -/
theorem claim1_amended (ms : List MatchRec) (tm : List (Nat × String))
    (hd : ∀ m ∈ ms, m.winner.isSome = true) :
    ∃ l, calculate_weighted_rankings ms tm = Except.ok l ∧
      sumTotalGames l = gamesAccounting ms tm := by
  obtain ⟨st, hp1, hsum⟩ := pass1Go_decisive ms { rd := initRD tm, opps := none } hd
  refine ⟨_, calculate_eq_of_pass1 ms tm st hp1, ?_⟩
  rw [sumTotalGames_sortStandings, sumTotalGames_values, sumTG_finalizePass, sumTG_pass2Go, hsum]
  rw [show ({ rd := initRD tm, opps := none } : P1State).rd = initRD tm from rfl, sumTG_initRD]
  unfold gamesAccounting
  rw [show ms.map (gamesContribRD (initRD tm)) = ms.map (gamesContribution tm) from rfl]
  omega

theorem claim1_amended_witness :
    (∀ m ∈ claim1w_ms, m.winner.isSome = true) ∧
    (∃ l, calculate_weighted_rankings claim1w_ms claim1w_tm = Except.ok l ∧
      sumTotalGames l = gamesAccounting claim1w_ms claim1w_tm) :=
  ⟨by decide, claim1_amended claim1w_ms claim1w_tm (by decide)⟩

/- ### Claim C2 -/

/-- Failing input for C2: a single match with no resolvable winner. -/
def claim2ms : List MatchRec :=
  [{ winner := none, opponentsRaw := [some 1, some 2], games := 3, league := none }]

def claim2tm : List (Nat × String) := [(1, "A"), (2, "B")]

/-- C2: contrary to the claim (and matching the slip flagged in the spec's
design notes), the engine itself raises on a match list whose first record
has no resolvable winner: the games-played block reads the local variable
`opponents` before any assignment. -/
theorem claim2_code_bug :
    calculate_weighted_rankings claim2ms claim2tm =
      Except.error "UnboundLocalError: local variable referenced before assignment" := by
  rfl

/- ### Claim C3 -/

/-- C3: the upset multiplier computed from pass-1 win rates is 1 when the
winner's rate is at least the loser's, is `1 + (loser - winner)` otherwise,
always lies in [1, 2], and reaches 2 exactly when the loser's rate is 1 and
the winner's is 0. -/
theorem claim3_upset_multiplier (ms : List MatchRec) (tm : List (Nat × String)) (st : P1State)
    (h : pass1 ms (initRD tm) = Except.ok st) (w l : Nat) :
    (wrGet (winratesOf st.rd) l ≤ wrGet (winratesOf st.rd) w →
      winrateMultiplier (wrGet (winratesOf st.rd) w) (wrGet (winratesOf st.rd) l) = 1) ∧
    (wrGet (winratesOf st.rd) w < wrGet (winratesOf st.rd) l →
      winrateMultiplier (wrGet (winratesOf st.rd) w) (wrGet (winratesOf st.rd) l) =
        1 + (wrGet (winratesOf st.rd) l - wrGet (winratesOf st.rd) w)) ∧
    1 ≤ winrateMultiplier (wrGet (winratesOf st.rd) w) (wrGet (winratesOf st.rd) l) ∧
    winrateMultiplier (wrGet (winratesOf st.rd) w) (wrGet (winratesOf st.rd) l) ≤ 2 ∧
    (winrateMultiplier (wrGet (winratesOf st.rd) w) (wrGet (winratesOf st.rd) l) = 2 ↔
      (wrGet (winratesOf st.rd) l = 1 ∧ wrGet (winratesOf st.rd) w = 0)) := by
  obtain ⟨hw0, hw1⟩ := wrGet_winratesOf_bounds st.rd w
  obtain ⟨hl0, hl1⟩ := wrGet_winratesOf_bounds st.rd l
  unfold winrateMultiplier
  by_cases hlt : wrGet (winratesOf st.rd) w < wrGet (winratesOf st.rd) l
  · rw [if_pos hlt]
    refine ⟨fun hle => absurd hlt (not_lt.mpr hle), fun _ => rfl, by linarith, by linarith, ?_⟩
    constructor
    · intro h2
      constructor <;> linarith
    · rintro ⟨ha, hb⟩
      rw [ha, hb]
      norm_num
  · rw [if_neg hlt]
    refine ⟨fun _ => rfl, fun hlt2 => absurd hlt2 hlt, le_refl 1, by norm_num, ?_⟩
    constructor
    · intro h2
      norm_num at h2
    · rintro ⟨ha, hb⟩
      rw [ha, hb] at hlt
      norm_num at hlt

theorem claim3_witness :
    pass1 ([] : List MatchRec) (initRD []) = Except.ok ({ rd := initRD [], opps := none } : P1State) ∧
    ((wrGet (winratesOf (initRD [])) 2 ≤ wrGet (winratesOf (initRD [])) 1 →
      winrateMultiplier (wrGet (winratesOf (initRD [])) 1) (wrGet (winratesOf (initRD [])) 2) = 1) ∧
    (wrGet (winratesOf (initRD [])) 1 < wrGet (winratesOf (initRD [])) 2 →
      winrateMultiplier (wrGet (winratesOf (initRD [])) 1) (wrGet (winratesOf (initRD [])) 2) =
        1 + (wrGet (winratesOf (initRD [])) 2 - wrGet (winratesOf (initRD [])) 1)) ∧
    1 ≤ winrateMultiplier (wrGet (winratesOf (initRD [])) 1) (wrGet (winratesOf (initRD [])) 2) ∧
    winrateMultiplier (wrGet (winratesOf (initRD [])) 1) (wrGet (winratesOf (initRD [])) 2) ≤ 2 ∧
    (winrateMultiplier (wrGet (winratesOf (initRD [])) 1) (wrGet (winratesOf (initRD [])) 2) = 2 ↔
      (wrGet (winratesOf (initRD [])) 2 = 1 ∧ wrGet (winratesOf (initRD [])) 1 = 0))) :=
  ⟨rfl, claim3_upset_multiplier [] [] { rd := initRD [], opps := none } rfl 1 2⟩

/- ### Claim C7 -/

/-- C7: in any successful run, each produced standing has
`normalized_points = points / total_games` when `total_games > 0` and
`normalized_points = 0` when `total_games = 0`. -/
theorem claim7_normalization_safety (ms : List MatchRec) (tm : List (Nat × String))
    (l : List Standing) (h : calculate_weighted_rankings ms tm = Except.ok l) :
    ∀ s ∈ l, (0 < s.total_games → s.normalized_points = s.points / (s.total_games : ℚ)) ∧
      (s.total_games = 0 → s.normalized_points = 0) := by
  cases hp : pass1 ms (initRD tm) with
  | error e =>
    rw [calculate_error_of_pass1 ms tm e hp] at h
    cases h
  | ok st =>
    intro s hs
    obtain ⟨e, he, hse⟩ := mem_standings ms tm st hp l h s hs
    have hnp := np_zero_before_finalize ms tm st hp e he
    subst hse
    unfold finalizeStanding
    by_cases htg : e.2.total_games > 0
    · rw [if_pos htg]
      refine ⟨fun _ => rfl, fun h0 => ?_⟩
      simp at h0
      omega
    · rw [if_neg htg]
      exact ⟨fun hlt => absurd hlt htg, fun _ => hnp⟩

def claim7out : List Standing :=
  [{ wins := 0, losses := 0, points := 0, name := "A", total_games := 0, normalized_points := 0 }]

theorem claim7_witness :
    calculate_weighted_rankings [] [(1, "A")] = Except.ok claim7out ∧
    ((0 < ({ wins := 0, losses := 0, points := 0, name := "A", total_games := 0,
             normalized_points := 0 } : Standing).total_games →
        ({ wins := 0, losses := 0, points := 0, name := "A", total_games := 0,
           normalized_points := 0 } : Standing).normalized_points =
          ({ wins := 0, losses := 0, points := 0, name := "A", total_games := 0,
             normalized_points := 0 } : Standing).points /
            (({ wins := 0, losses := 0, points := 0, name := "A", total_games := 0,
                normalized_points := 0 } : Standing).total_games : ℚ)) ∧
      (({ wins := 0, losses := 0, points := 0, name := "A", total_games := 0,
          normalized_points := 0 } : Standing).total_games = 0 →
        ({ wins := 0, losses := 0, points := 0, name := "A", total_games := 0,
           normalized_points := 0 } : Standing).normalized_points = 0)) :=
  ⟨by rfl,
   claim7_normalization_safety [] [(1, "A")] claim7out (by rfl)
     { wins := 0, losses := 0, points := 0, name := "A", total_games := 0, normalized_points := 0 }
     (by simp [claim7out])⟩

/- ### Claim C8 -/

instance : IsTotal Standing rankGE :=
  ⟨fun a b => le_total b.normalized_points a.normalized_points⟩

instance : IsTrans Standing rankGE :=
  ⟨fun a b c hab hbc => le_trans hbc hab⟩

/-- C8: the standings list of any successful run is sorted so that each
standing has `normalized_points` at least that of every later standing. -/
theorem claim8_sorted (ms : List MatchRec) (tm : List (Nat × String)) (l : List Standing)
    (h : calculate_weighted_rankings ms tm = Except.ok l) : List.Sorted rankGE l := by
  cases hp : pass1 ms (initRD tm) with
  | error e =>
    rw [calculate_error_of_pass1 ms tm e hp] at h
    cases h
  | ok st =>
    rw [calculate_eq_of_pass1 ms tm st hp] at h
    cases h
    exact List.sorted_insertionSort rankGE _

def claim8out : List Standing :=
  [{ wins := 0, losses := 0, points := 0, name := "A", total_games := 0, normalized_points := 0 },
   { wins := 0, losses := 0, points := 0, name := "B", total_games := 0, normalized_points := 0 }]

theorem claim8_witness :
    calculate_weighted_rankings [] [(1, "A"), (2, "B")] = Except.ok claim8out ∧
    List.Sorted rankGE claim8out :=
  ⟨by rfl, claim8_sorted [] [(1, "A"), (2, "B")] claim8out (by rfl)⟩

/- ### Claim C10 -/

theorem scoredPair_none_of_zero (m : MatchRec)
    (h : m.winner = some 0 ∨ loserOf m = some 0) : scoredPair m = none := by
  rcases h with hw | hl
  · simp only [scoredPair, hw]
    cases hgl : getLoser 0 (getOpponents m) with
    | none => rfl
    | some lid => simp
  · cases hw : m.winner with
    | none =>
      unfold loserOf at hl
      rw [hw] at hl
      simp at hl
    | some wid =>
      unfold loserOf at hl
      rw [hw] at hl
      simp only [] at hl
      simp only [scoredPair, hw, hl]
      simp

/-- C10: a decisive match in which a participant carries team id 0 fails
the truthiness guard: it is never scored in pass 2 and never reaches the
head-to-head table, yet pass 1 still counts the win (resp. the loss) when
id 0 is tracked. -/
theorem claim10_zero_id (m : MatchRec) (wr : List (Nat × ℚ)) (rd : List (Nat × Standing))
    (hh : List ((Nat × Nat) × List (Nat × Nat))) (st st' : P1State)
    (h : m.winner = some 0 ∨ loserOf m = some 0) :
    scoredPair m = none ∧
    pass2Step wr rd m = rd ∧
    h2hStep hh m = hh ∧
    (m.winner = some 0 → pass1Step st m = Except.ok st' → hasKey 0 st.rd = true →
      (getA defaultStanding 0 st'.rd).wins = (getA defaultStanding 0 st.rd).wins + 1) ∧
    (loserOf m = some 0 → pass1Step st m = Except.ok st' → hasKey 0 st.rd = true →
      (getA defaultStanding 0 st'.rd).losses = (getA defaultStanding 0 st.rd).losses + 1) := by
  have hsp := scoredPair_none_of_zero m h
  refine ⟨hsp, by simp [pass2Step, hsp], by simp [h2hStep, hsp], ?_, ?_⟩
  · intro hw hok hk
    rw [wins_pass1Step st st' m hok 0 hk, hw]
    simp
  · intro hl hok hk
    rw [losses_pass1Step st st' m hok 0 hk, hl]
    simp

def claim10m : MatchRec :=
  { winner := some 0, opponentsRaw := [some 0, some 2], games := 1, league := none }

def claim10st : P1State := { rd := [(0, defaultStanding)], opps := none }

def claim10st2 : P1State :=
  { rd := [(0, { wins := 1, losses := 0, points := 0, name := "", total_games := 1,
                 normalized_points := 0 })],
    opps := some [0, 2] }

theorem claim10_witness :
    (claim10m.winner = some 0 ∨ loserOf claim10m = some 0) ∧
    (scoredPair claim10m = none ∧
     pass2Step [] [] claim10m = [] ∧
     h2hStep [] claim10m = [] ∧
     (claim10m.winner = some 0 → pass1Step claim10st claim10m = Except.ok claim10st2 →
       hasKey 0 claim10st.rd = true →
       (getA defaultStanding 0 claim10st2.rd).wins = (getA defaultStanding 0 claim10st.rd).wins + 1) ∧
     (loserOf claim10m = some 0 → pass1Step claim10st claim10m = Except.ok claim10st2 →
       hasKey 0 claim10st.rd = true →
       (getA defaultStanding 0 claim10st2.rd).losses =
         (getA defaultStanding 0 claim10st.rd).losses + 1)) :=
  ⟨Or.inl rfl, claim10_zero_id claim10m [] [] [] claim10st claim10st2 (Or.inl rfl)⟩

/- ### Claim C5 -/

def claim5ms : List MatchRec :=
  [{ winner := some 1, opponentsRaw := [some 1, some 2], games := 3, league := none }]

def claim5tm : List (Nat × String) := [(1, "A"), (2, "B")]

def claim5out : List Standing :=
  [{ wins := 1, losses := 0, points := 120, name := "A", total_games := 3, normalized_points := 40 },
   { wins := 0, losses := 1, points := 0, name := "B", total_games := 3, normalized_points := 0 }]

/-- C5: a scored match adds exactly
`BASE_WIN_POINTS * series_weight * upset_multiplier * league_weight` to the
winner's points; series lengths 1/3/5 weigh 1/1.2/1.5, any other length
weighs 1, any league weighs 1 (the shipped table is empty); and the
spec's example run (one best-of-3 win) yields 120 points and 40
normalized points for the winner. -/
theorem claim5_points (wr : List (Nat × ℚ)) (rd : List (Nat × Standing)) (m : MatchRec)
    (wid lid n : Nat) (lg : Option Nat) (h : scoredPair m = some (wid, lid))
    (hn : n ≠ 1 ∧ n ≠ 3 ∧ n ≠ 5) :
    pointsInRD (pass2Step wr rd m) wid =
      pointsInRD rd wid +
        BASE_WIN_POINTS * seriesMultGet m.games *
          winrateMultiplier (wrGet wr wid) (wrGet wr lid) * leagueWeightGet m.league ∧
    seriesMultGet 1 = 1 ∧ seriesMultGet 3 = 6/5 ∧ seriesMultGet 5 = 3/2 ∧
    seriesMultGet n = 1 ∧
    leagueWeightGet lg = 1 ∧
    calculate_weighted_rankings claim5ms claim5tm = Except.ok claim5out := by
  obtain ⟨h1, h3, h5⟩ := hn
  refine ⟨?_, rfl, rfl, rfl, ?_, leagueWeightGet_eq_one lg, ?_⟩
  · rw [pointsInRD_pass2Step]
    simp only [contribOf, h, if_pos rfl]
    rfl
  · simp [seriesMultGet, SERIES_MULTIPLIERS, getA, lookupA, Ne.symm h1, Ne.symm h3, Ne.symm h5]
  · norm_num [claim5ms, claim5tm, claim5out, calculate_weighted_rankings, rankingDataOf, pass1,
      pass1Step, winLossBlock, gamesBlock, guardUpd, incWins, incLosses, addGames, addPoints,
      initRD, updD, updA, hasKey, lookupA, getA, getOpponents, getLoser, scoredPair, winratesOf,
      winrateOf, wrGet, pass2Step, pointsAwarded, BASE_WIN_POINTS, SERIES_MULTIPLIERS,
      seriesMultGet, LEAGUE_WEIGHTS, leagueWeightGet, winrateMultiplier, finalizePass,
      finalizeStanding, sortStandings, standingsOf, defaultStanding, List.foldlM, List.foldl,
      List.insertionSort, List.orderedInsert, rankGE, List.find?, List.filterMap]

def claim5wm : MatchRec :=
  { winner := some 1, opponentsRaw := [some 1, some 2], games := 3, league := none }

theorem claim5_witness :
    scoredPair claim5wm = some (1, 2) ∧ ((2 : Nat) ≠ 1 ∧ (2 : Nat) ≠ 3 ∧ (2 : Nat) ≠ 5) ∧
    (pointsInRD (pass2Step [] [] claim5wm) 1 =
      pointsInRD [] 1 +
        BASE_WIN_POINTS * seriesMultGet claim5wm.games *
          winrateMultiplier (wrGet [] 1) (wrGet [] 2) * leagueWeightGet claim5wm.league ∧
    seriesMultGet 1 = 1 ∧ seriesMultGet 3 = 6/5 ∧ seriesMultGet 5 = 3/2 ∧
    seriesMultGet 2 = 1 ∧
    leagueWeightGet (some 9) = 1 ∧
    calculate_weighted_rankings claim5ms claim5tm = Except.ok claim5out) :=
  ⟨by decide, by decide,
   claim5_points [] [] claim5wm 1 2 2 (some 9) (by decide) (by decide)⟩

/- ### Claim C6 -/

/-- Win count of team `t` under pair key `key` in a head-to-head table. -/
def pairWins (h2h : List ((Nat × Nat) × List (Nat × Nat))) (key : Nat × Nat) (t : Nat) : Nat :=
  getA 0 t (getA [] key h2h)

theorem getLoser_ne (wid lid : Nat) (opponents : List Nat)
    (h : getLoser wid opponents = some lid) : lid ≠ wid := by
  have := List.find?_some h
  simpa using this

theorem scoredPair_facts (m : MatchRec) (w l : Nat) (h : scoredPair m = some (w, l)) :
    w ≠ 0 ∧ l ≠ 0 ∧ l ≠ w := by
  unfold scoredPair at h
  cases hw : m.winner with
  | none => rw [hw] at h; cases h
  | some wid =>
    rw [hw] at h
    simp only [] at h
    cases hgl : getLoser wid (getOpponents m) with
    | none => rw [hgl] at h; cases h
    | some lid =>
      rw [hgl] at h
      simp only [] at h
      by_cases hc : wid ≠ 0 ∧ lid ≠ 0
      · rw [if_pos hc] at h
        have hpair := Option.some_inj.mp h
        have hww : wid = w := congrArg Prod.fst hpair
        have hll : lid = l := congrArg Prod.snd hpair
        subst hww
        subst hll
        exact ⟨hc.1, hc.2, getLoser_ne wid lid (getOpponents m) hgl⟩
      · rw [if_neg hc] at h
        simp at h

theorem h2hStep_scored (h2h : List ((Nat × Nat) × List (Nat × Nat))) (m : MatchRec) (w l : Nat)
    (h : scoredPair m = some (w, l)) :
    h2hStep h2h m =
      updD ([] : List (Nat × Nat)) (min w l, max w l) (fun inner => updD 0 l (fun c => c + 0) inner)
        (updD ([] : List (Nat × Nat)) (min w l, max w l) (fun inner => updD 0 w (fun c => c + 1) inner) h2h) := by
  simp [h2hStep, h]

theorem pairKeyOf_scored (m : MatchRec) (w l : Nat) (h : scoredPair m = some (w, l)) :
    pairKeyOf m = some (min w l, max w l) := by
  simp [pairKeyOf, h]

theorem innerSum_h2hStep (h2h : List ((Nat × Nat) × List (Nat × Nat))) (m : MatchRec)
    (key : Nat × Nat) :
    pairWins (h2hStep h2h m) key key.1 + pairWins (h2hStep h2h m) key key.2 =
      pairWins h2h key key.1 + pairWins h2h key key.2 +
        (if pairKeyOf m == some key then 1 else 0) := by
  cases hp : scoredPair m with
  | none => simp [h2hStep, hp, pairKeyOf]
  | some p =>
    obtain ⟨w, l⟩ := p
    obtain ⟨hw0, hl0, hlw⟩ := scoredPair_facts m w l hp
    rw [h2hStep_scored h2h m w l hp, pairKeyOf_scored m w l hp]
    by_cases hk : key = (min w l, max w l)
    · subst hk
      unfold pairWins
      rw [getA_updD_same, getA_updD_same]
      rcases Nat.lt_or_ge w l with hlt | hge
      · rw [show (min w l, max w l).1 = w from by simp [Nat.min_eq_left (Nat.le_of_lt hlt)],
            show (min w l, max w l).2 = l from by simp [Nat.max_eq_right (Nat.le_of_lt hlt)]]
        rw [getA_updD_other 0 0 w l _ _ (fun hc => hlw hc.symm), getA_updD_same,
            getA_updD_same, getA_updD_other 0 0 l w _ _ hlw]
        simp
        omega
      · have hlt : l < w := Nat.lt_of_le_of_ne hge hlw
        rw [show (min w l, max w l).1 = l from by simp [Nat.min_eq_right (Nat.le_of_lt hlt)],
            show (min w l, max w l).2 = w from by simp [Nat.max_eq_left (Nat.le_of_lt hlt)]]
        rw [getA_updD_same, getA_updD_other 0 0 w l _ _ (fun hc => hlw hc.symm), getA_updD_same,
            getA_updD_other 0 0 l w _ _ hlw]
        simp
        omega
    · unfold pairWins
      rw [getA_updD_other ([] : List (Nat × Nat)) ([] : List (Nat × Nat)) key _ _ _ hk,
          getA_updD_other ([] : List (Nat × Nat)) ([] : List (Nat × Nat)) key _ _ _ hk]
      simp [beq_iff_eq, Ne.symm hk]

theorem h2h_innerSum_go (ms : List MatchRec) : ∀ (h2h : List ((Nat × Nat) × List (Nat × Nat)))
    (key : Nat × Nat),
    pairWins (ms.foldl h2hStep h2h) key key.1 + pairWins (ms.foldl h2hStep h2h) key key.2 =
      pairWins h2h key key.1 + pairWins h2h key key.2 + decisiveCount ms key := by
  induction ms with
  | nil => intro h2h key; simp [decisiveCount]
  | cons m rest ih =>
    intro h2h key
    rw [List.foldl_cons, ih, innerSum_h2hStep]
    unfold decisiveCount
    rw [List.countP_cons]
    omega

theorem hasKey_h2hStep (h2h : List ((Nat × Nat) × List (Nat × Nat))) (m : MatchRec)
    (key : Nat × Nat) :
    hasKey key (h2hStep h2h m) = (hasKey key h2h || (pairKeyOf m == some key)) := by
  cases hp : scoredPair m with
  | none => simp [h2hStep, hp, pairKeyOf]
  | some p =>
    obtain ⟨w, l⟩ := p
    rw [h2hStep_scored h2h m w l hp, pairKeyOf_scored m w l hp, hasKey_updD, hasKey_updD]
    by_cases hk : key = (min w l, max w l)
    · subst hk
      simp
    · simp [hk, Ne.symm hk]

theorem h2h_hasKey_go (ms : List MatchRec) : ∀ (h2h : List ((Nat × Nat) × List (Nat × Nat)))
    (key : Nat × Nat),
    hasKey key (ms.foldl h2hStep h2h) =
      (hasKey key h2h || ms.any (fun m => pairKeyOf m == some key)) := by
  induction ms with
  | nil => intro h2h key; simp
  | cons m rest ih =>
    intro h2h key
    rw [List.foldl_cons, ih, hasKey_h2hStep, List.any_cons, Bool.or_assoc]

theorem h2h_bothKeys_step (h2h : List ((Nat × Nat) × List (Nat × Nat))) (m : MatchRec)
    (hinv : ∀ key, hasKey key h2h = true →
      hasKey key.1 (getA [] key h2h) = true ∧ hasKey key.2 (getA [] key h2h) = true) :
    ∀ key, hasKey key (h2hStep h2h m) = true →
      hasKey key.1 (getA [] key (h2hStep h2h m)) = true ∧
      hasKey key.2 (getA [] key (h2hStep h2h m)) = true := by
  intro key hk
  cases hp : scoredPair m with
  | none =>
    rw [show h2hStep h2h m = h2h from by simp [h2hStep, hp]] at hk ⊢
    exact hinv key hk
  | some p =>
    obtain ⟨w, l⟩ := p
    obtain ⟨hw0, hl0, hlw⟩ := scoredPair_facts m w l hp
    rw [h2hStep_scored h2h m w l hp] at hk ⊢
    by_cases hkey : key = (min w l, max w l)
    · subst hkey
      rw [getA_updD_same, getA_updD_same]
      rw [hasKey_updD, hasKey_updD, hasKey_updD, hasKey_updD]
      rcases Nat.lt_or_ge w l with hlt | hge
      · rw [show (min w l, max w l).1 = w from by simp [Nat.min_eq_left (Nat.le_of_lt hlt)],
            show (min w l, max w l).2 = l from by simp [Nat.max_eq_right (Nat.le_of_lt hlt)]]
        simp
      · have hlt : l < w := Nat.lt_of_le_of_ne hge hlw
        rw [show (min w l, max w l).1 = l from by simp [Nat.min_eq_right (Nat.le_of_lt hlt)],
            show (min w l, max w l).2 = w from by simp [Nat.max_eq_left (Nat.le_of_lt hlt)]]
        simp
    · rw [getA_updD_other ([] : List (Nat × Nat)) ([] : List (Nat × Nat)) key _ _ _ hkey,
          getA_updD_other ([] : List (Nat × Nat)) ([] : List (Nat × Nat)) key _ _ _ hkey]
      rw [hasKey_updD, hasKey_updD] at hk
      simp [hkey] at hk
      exact hinv key hk

theorem h2h_bothKeys_go (ms : List MatchRec) : ∀ (h2h : List ((Nat × Nat) × List (Nat × Nat))),
    (∀ key, hasKey key h2h = true →
      hasKey key.1 (getA [] key h2h) = true ∧ hasKey key.2 (getA [] key h2h) = true) →
    ∀ key, hasKey key (ms.foldl h2hStep h2h) = true →
      hasKey key.1 (getA [] key (ms.foldl h2hStep h2h)) = true ∧
      hasKey key.2 (getA [] key (ms.foldl h2hStep h2h)) = true := by
  induction ms with
  | nil => intro h2h hinv; exact hinv
  | cons m rest ih =>
    intro h2h hinv
    rw [List.foldl_cons]
    exact ih (h2hStep h2h m) (h2h_bothKeys_step h2h m hinv)

/-- C6: a pair key is materialized in the head-to-head table only when at
least one decisive match exists between the two teams; both teams of a
materialized pair have an entry (the loser's side is initialized to 0);
and the two win counts sum to the number of decisive matches of the pair. -/
theorem claim6_h2h (ms : List MatchRec) (key : Nat × Nat)
    (hk : hasKey key (calculate_head_to_head_records ms) = true) :
    1 ≤ decisiveCount ms key ∧
    hasKey key.1 (getA [] key (calculate_head_to_head_records ms)) = true ∧
    hasKey key.2 (getA [] key (calculate_head_to_head_records ms)) = true ∧
    pairWins (calculate_head_to_head_records ms) key key.1 +
      pairWins (calculate_head_to_head_records ms) key key.2 = decisiveCount ms key := by
  have hks := hk
  unfold calculate_head_to_head_records at hks
  rw [h2h_hasKey_go ms [] key] at hks
  simp only [hasKey, lookupA, Option.isSome_none, Bool.false_or] at hks
  obtain ⟨m, hm, hpm⟩ := List.any_eq_true.mp hks
  refine ⟨?_, ?_, ?_, ?_⟩
  · have : 0 < decisiveCount ms key := List.countP_pos_iff.mpr ⟨m, hm, hpm⟩
    omega
  · exact (h2h_bothKeys_go ms [] (fun key hkey => by simp [hasKey, lookupA] at hkey) key hk).1
  · exact (h2h_bothKeys_go ms [] (fun key hkey => by simp [hasKey, lookupA] at hkey) key hk).2
  · have := h2h_innerSum_go ms [] key
    unfold calculate_head_to_head_records
    rw [this, show pairWins [] key key.1 = 0 from rfl, show pairWins [] key key.2 = 0 from rfl]
    omega

def claim6ms : List MatchRec :=
  [{ winner := some 1, opponentsRaw := [some 1, some 2], games := 1, league := none }]

theorem claim6_witness :
    hasKey ((1, 2) : Nat × Nat) (calculate_head_to_head_records claim6ms) = true ∧
    (1 ≤ decisiveCount claim6ms (1, 2) ∧
    hasKey ((1, 2) : Nat × Nat).1 (getA [] (1, 2) (calculate_head_to_head_records claim6ms)) = true ∧
    hasKey ((1, 2) : Nat × Nat).2 (getA [] (1, 2) (calculate_head_to_head_records claim6ms)) = true ∧
    pairWins (calculate_head_to_head_records claim6ms) (1, 2) ((1, 2) : Nat × Nat).1 +
      pairWins (calculate_head_to_head_records claim6ms) (1, 2) ((1, 2) : Nat × Nat).2 =
        decisiveCount claim6ms (1, 2)) :=
  ⟨by decide, claim6_h2h claim6ms (1, 2) (by decide)⟩

/- ### Claim C4 support -/

theorem lookupA_mem {α β : Type} [DecidableEq α] (k : α) (v : β) (l : List (α × β))
    (h : lookupA k l = some v) : (k, v) ∈ l := by
  induction l with
  | nil => cases h
  | cons e rest ih =>
    unfold lookupA at h
    by_cases he : e.1 = k
    · rw [if_pos he] at h
      have : e = (k, v) := by
        obtain ⟨e1, e2⟩ := e
        simp at he
        simp only [Option.some_inj] at h
        simp [he, h]
      rw [← this]
      exact List.mem_cons.mpr (Or.inl rfl)
    · rw [if_neg he] at h
      exact List.mem_cons.mpr (Or.inr (ih h))

theorem scoredPair_winner (m : MatchRec) (w l : Nat) (h : scoredPair m = some (w, l)) :
    m.winner = some w := by
  unfold scoredPair at h
  cases hw : m.winner with
  | none => rw [hw] at h; cases h
  | some wid =>
    rw [hw] at h
    simp only [] at h
    cases hgl : getLoser wid (getOpponents m) with
    | none => rw [hgl] at h; cases h
    | some lid =>
      rw [hgl] at h
      simp only [] at h
      by_cases hc : wid ≠ 0 ∧ lid ≠ 0
      · rw [if_pos hc] at h
        have := congrArg Prod.fst (Option.some_inj.mp h)
        exact congrArg some this
      · rw [if_neg hc] at h
        cases h

theorem getLoser_mem (wid lid : Nat) (opponents : List Nat)
    (h : getLoser wid opponents = some lid) : lid ∈ opponents :=
  List.mem_of_find?_eq_some h

theorem lookupA_guardUpd_other (k k' : Nat) (f : Standing → Standing) (rd : List (Nat × Standing))
    (h : k ≠ k') : lookupA k (guardUpd k' f rd) = lookupA k rd := by
  rw [lookupA_guardUpd, if_neg h]

theorem lookupA_winLossBlock_other (wid : Nat) (m : MatchRec) (rd : List (Nat × Standing)) (t : Nat)
    (hw : t ≠ wid) (hl : ∀ x, getLoser wid (getOpponents m) = some x → t ≠ x) :
    lookupA t (winLossBlock wid m rd) = lookupA t rd := by
  unfold winLossBlock
  cases hgl : getLoser wid (getOpponents m) with
  | none => exact lookupA_guardUpd_other t wid incWins rd hw
  | some x =>
    rw [lookupA_guardUpd_other t x incLosses _ (hl x hgl),
        lookupA_guardUpd_other t wid incWins rd hw]

theorem lookupA_gamesBlock_other (g : Nat) (opponents : List Nat) (rd : List (Nat × Standing))
    (t : Nat) (h : t ∉ opponents) : lookupA t (gamesBlock g opponents rd) = lookupA t rd := by
  match opponents with
  | [] => rfl
  | [t1] => rfl
  | [t1, t2] =>
    rw [show gamesBlock g [t1, t2] rd = guardUpd t2 (addGames g) (guardUpd t1 (addGames g) rd) from rfl]
    simp only [List.mem_cons, List.not_mem_nil] at h
    push_neg at h
    rw [lookupA_guardUpd_other t t2 (addGames g) _ h.2.1,
        lookupA_guardUpd_other t t1 (addGames g) rd h.1]
  | t1 :: t2 :: t3 :: rest => rfl

theorem pass1Go_untouched (t : Nat) (ms : List MatchRec) : ∀ (st st' : P1State),
    (∀ m ∈ ms, m.winner ≠ some t ∧ t ∉ getOpponents m) →
    (∀ o, st.opps = some o → t ∉ o) →
    ms.foldlM pass1Step st = Except.ok st' →
    lookupA t st'.rd = lookupA t st.rd := by
  induction ms with
  | nil =>
    intro st st' _ _ h
    rw [List.foldlM_nil] at h
    cases h
    rfl
  | cons m rest ih =>
    intro st st' hm ho h
    rw [List.foldlM_cons] at h
    obtain ⟨hmw, hmo⟩ := hm m (List.mem_cons.mpr (Or.inl rfl))
    cases h1 : pass1Step st m with
    | error e => rw [h1] at h; exact absurd h (by simp [Bind.bind, Except.bind])
    | ok st1 =>
      rw [h1] at h
      have hrest := fun x hx => hm x (List.mem_cons.mpr (Or.inr hx))
      cases hw : m.winner with
      | some wid =>
        rw [pass1Step_winner_some st m wid hw] at h1
        cases h1
        have hwid : t ≠ wid := by
          intro hc
          exact hmw (hc ▸ hw)
        have hlookup : lookupA t (gamesBlock m.games (getOpponents m) (winLossBlock wid m st.rd)) =
            lookupA t st.rd := by
          rw [lookupA_gamesBlock_other m.games (getOpponents m) _ t hmo,
              lookupA_winLossBlock_other wid m st.rd t hwid
                (fun x hx hc => hmo (hc ▸ getLoser_mem wid x (getOpponents m) hx))]
        rw [ih _ st' hrest (fun o hoo => by
              cases hoo
              exact hmo) h]
        exact hlookup
      | none =>
        cases hop : st.opps with
        | none =>
          rw [pass1Step_winner_none_none st m hw hop] at h1
          cases h1
        | some o =>
          rw [pass1Step_winner_none_some st m o hw hop] at h1
          cases h1
          have hto : t ∉ o := ho o hop
          rw [ih _ st' hrest (fun o2 ho2 => by
                cases ho2
                exact hto) h]
          exact lookupA_gamesBlock_other m.games o st.rd t hto

/- key-set characterization and distinctness -/

theorem map_fst_finalizePass (rd : List (Nat × Standing)) :
    (finalizePass rd).map Prod.fst = rd.map Prod.fst := by
  unfold finalizePass
  rw [List.map_map]
  rfl

theorem nodup_keys_updD {α β : Type} [DecidableEq α] (d : β) (k : α) (f : β → β)
    (l : List (α × β)) (h : (l.map Prod.fst).Nodup) : ((updD d k f l).map Prod.fst).Nodup := by
  unfold updD
  by_cases hk : hasKey k l
  · rw [if_pos hk, map_fst_updA]
    exact h
  · rw [if_neg hk, List.map_append]
    rw [List.nodup_append]
    refine ⟨h, List.nodup_singleton _, ?_⟩
    intro a ha hb
    simp at hb
    subst hb
    exact absurd ((hasKey_iff_mem_map_fst a l).mpr ha) (by simpa using hk)

theorem nodup_keys_initRD_go (tm : List (Nat × String)) : ∀ rd,
    (rd.map Prod.fst).Nodup →
    ((tm.foldl (fun rd e => updD defaultStanding e.1 (fun s => { s with name := e.2 }) rd) rd).map
      Prod.fst).Nodup := by
  induction tm with
  | nil => intro rd h; exact h
  | cons e rest ih =>
    intro rd h
    rw [List.foldl_cons]
    exact ih _ (nodup_keys_updD defaultStanding e.1 _ rd h)

theorem nodup_keys_initRD (tm : List (Nat × String)) : ((initRD tm).map Prod.fst).Nodup :=
  nodup_keys_initRD_go tm [] List.nodup_nil

theorem nodup_keys_pass2Step (wr : List (Nat × ℚ)) (rd : List (Nat × Standing)) (m : MatchRec)
    (h : (rd.map Prod.fst).Nodup) : ((pass2Step wr rd m).map Prod.fst).Nodup := by
  cases hp : scoredPair m with
  | none => simpa [pass2Step, hp] using h
  | some p =>
    obtain ⟨wid, lid⟩ := p
    simp only [pass2Step, hp]
    exact nodup_keys_updD defaultStanding wid _ rd h

theorem nodup_keys_pass2Go (ms : List MatchRec) : ∀ (wr : List (Nat × ℚ)) (rd : List (Nat × Standing)),
    (rd.map Prod.fst).Nodup → (((ms.foldl (pass2Step wr) rd)).map Prod.fst).Nodup := by
  induction ms with
  | nil => intro wr rd h; exact h
  | cons m rest ih =>
    intro wr rd h
    rw [List.foldl_cons]
    exact ih wr _ (nodup_keys_pass2Step wr rd m h)

theorem hasKey_initRD_go (t : Nat) (tm : List (Nat × String)) : ∀ rd,
    hasKey t (tm.foldl (fun rd e => updD defaultStanding e.1 (fun s => { s with name := e.2 }) rd) rd) =
      (hasKey t rd || tm.any (fun e => decide (e.1 = t))) := by
  induction tm with
  | nil => intro rd; simp
  | cons e rest ih =>
    intro rd
    rw [List.foldl_cons, ih, hasKey_updD, List.any_cons]
    by_cases h : t = e.1
    · subst h
      simp
    · simp [h, Ne.symm h]

theorem hasKey_initRD (t : Nat) (tm : List (Nat × String)) :
    hasKey t (initRD tm) = true ↔ t ∈ tm.map Prod.fst := by
  unfold initRD
  rw [hasKey_initRD_go]
  simp only [hasKey, lookupA, Option.isSome_none, Bool.false_or, List.any_eq_true]
  constructor
  · rintro ⟨e, he, hd⟩
    rw [List.mem_map]
    exact ⟨e, he, by simpa using hd⟩
  · intro h
    obtain ⟨e, he, hd⟩ := List.mem_map.mp h
    exact ⟨e, he, by simpa using hd⟩

/- ### Claim C4 -/

/-- The fully-aggregated ranking dictionary (still keyed by team id). -/
def finalRD (ms : List MatchRec) (st : P1State) : List (Nat × Standing) :=
  finalizePass (ms.foldl (pass2Step (winratesOf st.rd)) st.rd)

def claim4ms : List MatchRec :=
  [{ winner := some 7, opponentsRaw := [some 7, some 8], games := 2, league := none }]

def claim4tm : List (Nat × String) := [(1, "A")]

/-- C4 counterexample: with universe {1} and a match won by untracked team
7, the run succeeds but returns two standings — the pass-2 `defaultdict`
materializes an entry for id 7, so the output is not limited to the
supplied map. -/
theorem claim4_counterexample :
    (calculate_weighted_rankings claim4ms claim4tm).isOk = true ∧
    (standingsOf (calculate_weighted_rankings claim4ms claim4tm)).length = 2 ∧
    (claim4tm.map Prod.fst).length = 1 := by
  refine ⟨?_, ?_, ?_⟩ <;> decide

theorem scoredWinner_ne_of_winner_ne (m : MatchRec) (t : Nat) (h : m.winner ≠ some t) :
    scoredWinner m ≠ some t := by
  intro hsw
  unfold scoredWinner at hsw
  cases hsp : scoredPair m with
  | none => rw [hsp] at hsw; cases hsw
  | some p =>
    obtain ⟨w, lid⟩ := p
    rw [hsp] at hsw
    have hw : w = t := Option.some_inj.mp hsw
    exact h (hw ▸ scoredPair_winner m w lid hsp)

/-- C4 (amended): a successful run returns one standing per entry of the
final ranking dictionary, whose keys are distinct and are exactly the
tracked ids plus the (possibly untracked) winners of scored matches; a
tracked team that appears in no match receives the all-zero standing. -/
theorem claim4_amended (ms : List MatchRec) (tm : List (Nat × String)) (st : P1State)
    (l : List Standing) (t : Nat)
    (hp : pass1 ms (initRD tm) = Except.ok st)
    (h : calculate_weighted_rankings ms tm = Except.ok l) :
    l.length = (finalRD ms st).length ∧
    ((finalRD ms st).map Prod.fst).Nodup ∧
    (hasKey t (finalRD ms st) = true ↔
      (t ∈ tm.map Prod.fst ∨ ms.any (fun m => scoredWinner m == some t) = true)) ∧
    (t ∈ tm.map Prod.fst →
      (∀ m ∈ ms, m.winner ≠ some t ∧ t ∉ getOpponents m) →
      ∃ s, lookupA t (finalRD ms st) = some s ∧ s.wins = 0 ∧ s.losses = 0 ∧ s.points = 0 ∧
        s.total_games = 0 ∧ s.normalized_points = 0 ∧ s ∈ l) := by
  have hcalc := calculate_eq_of_pass1 ms tm st hp
  rw [hcalc] at h
  have hl : l = sortStandings ((finalRD ms st).map (fun e => e.2)) := (Option.some_inj.mp ?eqok).symm
  case eqok =>
    cases h
    rfl
  have hkeys2 : (ms.foldl (pass2Step (winratesOf st.rd)) st.rd).map Prod.fst =
      ((ms.foldl (pass2Step (winratesOf st.rd)) st.rd)).map Prod.fst := rfl
  refine ⟨?_, ?_, ?_, ?_⟩
  · rw [hl]
    unfold sortStandings
    rw [(List.perm_insertionSort rankGE _).length_eq, List.length_map]
  · unfold finalRD
    rw [map_fst_finalizePass]
    apply nodup_keys_pass2Go
    rw [pass1_map_fst ms (initRD tm) st hp]
    exact nodup_keys_initRD tm
  · unfold finalRD
    rw [hasKey_congr t (map_fst_finalizePass _), hasKey_pass2Go,
        hasKey_congr t (pass1_map_fst ms (initRD tm) st hp)]
    cases hik : hasKey t (initRD tm) with
    | true =>
      simp only [Bool.true_or, true_iff]
      exact Or.inl ((hasKey_initRD t tm).mp hik)
    | false =>
      simp only [Bool.false_or]
      constructor
      · exact Or.inr
      · rintro (hmem | hany)
        · exact absurd ((hasKey_initRD t tm).mpr hmem) (by simp [hik])
        · exact hany
  · intro htr huntouched
    have hik : hasKey t (initRD tm) = true := (hasKey_initRD t tm).mpr htr
    obtain ⟨s0, hs0⟩ := Option.isSome_iff_exists.mp hik
    have hzero : s0.wins = 0 ∧ s0.losses = 0 ∧ s0.points = 0 ∧ s0.total_games = 0 ∧
        s0.normalized_points = 0 := by
      have := forall_mem_initRD
        (fun s => s.wins = 0 ∧ s.losses = 0 ∧ s.points = 0 ∧ s.total_games = 0 ∧
          s.normalized_points = 0) tm
        (fun s nm hs => hs) (fun nm => ⟨rfl, rfl, rfl, rfl, rfl⟩)
        (t, s0) (lookupA_mem t s0 (initRD tm) hs0)
      exact this
    have h1 : lookupA t st.rd = some s0 := by
      rw [pass1Go_untouched t ms { rd := initRD tm, opps := none } st huntouched
            (fun o ho => by cases ho) hp]
      exact hs0
    have h2 : lookupA t (ms.foldl (pass2Step (winratesOf st.rd)) st.rd) = some s0 := by
      rw [lookupA_pass2Go_other ms (winratesOf st.rd) st.rd t
            (fun m hm => scoredWinner_ne_of_winner_ne m t (huntouched m hm).1)]
      exact h1
    have h3 : lookupA t (finalRD ms st) = some s0 := by
      unfold finalRD
      rw [lookupA_finalizePass, h2]
      show some (finalizeStanding s0) = some s0
      have hfin : finalizeStanding s0 = s0 := by
        unfold finalizeStanding
        rw [if_neg]
        omega
      rw [hfin]
    obtain ⟨hz1, hz2, hz3, hz4, hz5⟩ := hzero
    refine ⟨s0, h3, hz1, hz2, hz3, hz4, hz5, ?_⟩
    rw [hl]
    unfold sortStandings
    rw [List.mem_insertionSort]
    exact List.mem_map.mpr ⟨(t, s0), lookupA_mem t s0 _ h3, rfl⟩

def claim4w_tm : List (Nat × String) := [(3, "C")]

def claim4w_st : P1State := { rd := initRD claim4w_tm, opps := none }

def claim4w_out : List Standing :=
  [{ wins := 0, losses := 0, points := 0, name := "C", total_games := 0, normalized_points := 0 }]

theorem claim4_amended_witness :
    pass1 [] (initRD claim4w_tm) = Except.ok claim4w_st ∧
    calculate_weighted_rankings [] claim4w_tm = Except.ok claim4w_out ∧
    (claim4w_out.length = (finalRD [] claim4w_st).length ∧
    ((finalRD [] claim4w_st).map Prod.fst).Nodup ∧
    (hasKey 3 (finalRD [] claim4w_st) = true ↔
      (3 ∈ claim4w_tm.map Prod.fst ∨ List.any [] (fun m => scoredWinner m == some 3) = true)) ∧
    (3 ∈ claim4w_tm.map Prod.fst →
      (∀ m ∈ ([] : List MatchRec), m.winner ≠ some 3 ∧ 3 ∉ getOpponents m) →
      ∃ s, lookupA 3 (finalRD [] claim4w_st) = some s ∧ s.wins = 0 ∧ s.losses = 0 ∧
        s.points = 0 ∧ s.total_games = 0 ∧ s.normalized_points = 0 ∧ s ∈ claim4w_out)) :=
  ⟨by rfl, by rfl, claim4_amended [] claim4w_tm claim4w_st claim4w_out 3 (by rfl) (by rfl)⟩

/- ### Claim C9 support: win-rate arithmetic -/

/-- `wins / (wins + losses)` with the zero guard, on raw counters. -/
def wrNat (w l : Nat) : ℚ :=
  if w + l > 0 then (w : ℚ) / ((w : ℚ) + (l : ℚ)) else 0

theorem winrateOf_eq_wrNat (s : Standing) : winrateOf s = wrNat s.wins s.losses := rfl

theorem wrNat_bounds (w l : Nat) : 0 ≤ wrNat w l ∧ wrNat w l ≤ 1 := by
  unfold wrNat
  by_cases h : w + l > 0
  · rw [if_pos h]
    have hpos : (0 : ℚ) < (w : ℚ) + (l : ℚ) := by
      have : (0 : ℚ) < ((w + l : Nat) : ℚ) := by exact_mod_cast h
      push_cast at this
      linarith
    constructor
    · positivity
    · rw [div_le_one hpos]
      have : (0 : ℚ) ≤ (l : ℚ) := by positivity
      linarith
  · rw [if_neg h]
    norm_num

theorem wrNat_mono_win (w l : Nat) : wrNat w l ≤ wrNat (w + 1) l := by
  unfold wrNat
  by_cases h : w + l > 0
  · have h2 : w + 1 + l > 0 := by omega
    rw [if_pos h, if_pos h2]
    have hpos : (0 : ℚ) < (w : ℚ) + (l : ℚ) := by
      have : (0 : ℚ) < ((w + l : Nat) : ℚ) := by exact_mod_cast h
      push_cast at this
      linarith
    push_cast
    rw [div_le_div_iff₀ hpos (by linarith)]
    have hw : (0 : ℚ) ≤ (w : ℚ) := by positivity
    have hl : (0 : ℚ) ≤ (l : ℚ) := by positivity
    nlinarith
  · have hw : w = 0 := by omega
    have hl : l = 0 := by omega
    subst hw
    subst hl
    norm_num

theorem wrNat_antitone_loss (w l : Nat) : wrNat w (l + 1) ≤ wrNat w l := by
  unfold wrNat
  by_cases hw : w = 0
  · subst hw
    simp
  · have h : w + l > 0 := by omega
    have h2 : w + (l + 1) > 0 := by omega
    rw [if_pos h, if_pos h2]
    have hpos : (0 : ℚ) < (w : ℚ) + (l : ℚ) := by
      have : (0 : ℚ) < ((w + l : Nat) : ℚ) := by exact_mod_cast h
      push_cast at this
      linarith
    push_cast
    rw [div_le_div_iff₀ (by linarith) hpos]
    have hwq : (0 : ℚ) ≤ (w : ℚ) := by positivity
    nlinarith

theorem wrNat_win_gap (w l : Nat) : (w : ℚ) * (wrNat (w + 1) l - wrNat w l) ≤ 1/4 := by
  unfold wrNat
  by_cases h : w + l > 0
  · have h2 : w + 1 + l > 0 := by omega
    rw [if_pos h, if_pos h2]
    have hpos : (0 : ℚ) < (w : ℚ) + (l : ℚ) := by
      have : (0 : ℚ) < ((w + l : Nat) : ℚ) := by exact_mod_cast h
      push_cast at this
      linarith
    have hwq : (0 : ℚ) ≤ (w : ℚ) := by positivity
    have hlq : (0 : ℚ) ≤ (l : ℚ) := by positivity
    push_cast
    have h1 : (0 : ℚ) < (w : ℚ) + (l : ℚ) + 1 := by linarith
    rw [show ((w : ℚ) + 1) / ((w : ℚ) + 1 + (l : ℚ)) = ((w : ℚ) + 1) / ((w : ℚ) + (l : ℚ) + 1) from by
      ring_nf]
    rw [div_sub_div _ _ (ne_of_gt h1) (ne_of_gt hpos)]
    have hnum : ((w : ℚ) + 1) * ((w : ℚ) + (l : ℚ)) - ((w : ℚ) + (l : ℚ) + 1) * (w : ℚ) = (l : ℚ) := by
      ring
    rw [hnum, ← mul_div_assoc]
    rw [div_le_div_iff₀ (by positivity) (by norm_num)]
    nlinarith [sq_nonneg ((w : ℚ) - (l : ℚ))]
  · have hw : w = 0 := by omega
    subst hw
    norm_num

theorem wrNat_loss_gap (w l : Nat) : (l : ℚ) * (wrNat w l - wrNat w (l + 1)) ≤ 1/4 := by
  unfold wrNat
  by_cases h : w + l > 0
  · have h2 : w + (l + 1) > 0 := by omega
    rw [if_pos h, if_pos h2]
    have hpos : (0 : ℚ) < (w : ℚ) + (l : ℚ) := by
      have : (0 : ℚ) < ((w + l : Nat) : ℚ) := by exact_mod_cast h
      push_cast at this
      linarith
    have hwq : (0 : ℚ) ≤ (w : ℚ) := by positivity
    have hlq : (0 : ℚ) ≤ (l : ℚ) := by positivity
    push_cast
    have h1 : (0 : ℚ) < (w : ℚ) + (l : ℚ) + 1 := by linarith
    rw [show (w : ℚ) + ((l : ℚ) + 1) = (w : ℚ) + (l : ℚ) + 1 from by ring]
    rw [div_sub_div _ _ (ne_of_gt hpos) (ne_of_gt h1)]
    have hnum : (w : ℚ) * ((w : ℚ) + (l : ℚ) + 1) - ((w : ℚ) + (l : ℚ)) * (w : ℚ) = (w : ℚ) := by
      ring
    rw [hnum, ← mul_div_assoc]
    rw [div_le_div_iff₀ (by positivity) (by norm_num)]
    nlinarith [sq_nonneg ((w : ℚ) - (l : ℚ))]
  · have hl : l = 0 := by omega
    subst hl
    norm_num

/-- The upset multiplier moves by at most the win rates' movements. -/
theorem winrateMultiplier_lipschitz (a a2 b b2 : ℚ) (ha : a ≤ a2) (hb : b2 ≤ b) :
    winrateMultiplier a b - winrateMultiplier a2 b2 ≤ (b - b2) + (a2 - a) := by
  unfold winrateMultiplier
  by_cases h1 : a < b <;> by_cases h2 : a2 < b2 <;> simp [h1, h2] <;> linarith

/- ### Claim C9 support: counters through the pipeline -/

theorem initRD_getA_zero (tm : List (Nat × String)) (t : Nat) :
    (getA defaultStanding t (initRD tm)).wins = 0 ∧
    (getA defaultStanding t (initRD tm)).losses = 0 ∧
    (getA defaultStanding t (initRD tm)).points = 0 ∧
    (getA defaultStanding t (initRD tm)).total_games = 0 := by
  unfold getA
  cases hlk : lookupA t (initRD tm) with
  | none => exact ⟨rfl, rfl, rfl, rfl⟩
  | some s =>
    have := forall_mem_initRD
      (fun s => s.wins = 0 ∧ s.losses = 0 ∧ s.points = 0 ∧ s.total_games = 0) tm
      (fun s nm hs => hs) (fun nm => ⟨rfl, rfl, rfl, rfl⟩) (t, s) (lookupA_mem t s _ hlk)
    simpa using this

theorem wrGet_pass1 (ms : List MatchRec) (tm : List (Nat × String)) (st : P1State) (u : Nat)
    (h : pass1 ms (initRD tm) = Except.ok st) :
    wrGet (winratesOf st.rd) u =
      (if hasKey u (initRD tm) = true then wrNat (winsCount u ms) (lossCount u ms) else 0) := by
  rw [wrGet_winratesOf]
  have hkey : hasKey u st.rd = hasKey u (initRD tm) :=
    hasKey_congr u (pass1_map_fst ms (initRD tm) st h)
  cases hik : hasKey u (initRD tm) with
  | false =>
    rw [if_neg (by simp)]
    have hfalse : hasKey u st.rd = false := hkey.trans hik
    unfold hasKey at hfalse
    cases hlk : lookupA u st.rd with
    | none => rfl
    | some s => rw [hlk] at hfalse; simp at hfalse
  | true =>
    rw [if_pos rfl]
    have hks : hasKey u st.rd = true := hkey.trans hik
    unfold hasKey at hks
    cases hlk : lookupA u st.rd with
    | none => rw [hlk] at hks; simp at hks
    | some s =>
      have hgetA : getA defaultStanding u st.rd = s := by
        unfold getA
        rw [hlk]
        rfl
      have hw := wins_pass1Go ms { rd := initRD tm, opps := none } st h u hik
      have hl := losses_pass1Go ms { rd := initRD tm, opps := none } st h u hik
      rw [show ({ rd := initRD tm, opps := none } : P1State).rd = initRD tm from rfl] at hw hl
      obtain ⟨hz1, hz2, _, _⟩ := initRD_getA_zero tm u
      rw [hgetA, hz1] at hw
      rw [hgetA, hz2] at hl
      show winrateOf s = wrNat (winsCount u ms) (lossCount u ms)
      rw [winrateOf_eq_wrNat, hw, hl]
      simp [winsCount, lossCount]

theorem points_zero_pass1 (ms : List MatchRec) (tm : List (Nat × String)) (st : P1State)
    (h : pass1 ms (initRD tm) = Except.ok st) (t : Nat) : pointsInRD st.rd t = 0 := by
  unfold pointsInRD getA
  cases hlk : lookupA t st.rd with
  | none => rfl
  | some s =>
    have := forall_mem_pass1Go_pred (fun s => s.points = 0) ms { rd := initRD tm, opps := none } st h
      (forall_mem_initRD (fun s => s.points = 0) tm (fun s nm hs => hs) (fun nm => rfl))
      (fun b hb => hb) (fun b hb => hb) (fun b g hb => hb) (t, s) (lookupA_mem t s _ hlk)
    simpa using this

theorem pointsInRD_finalizePass (rd : List (Nat × Standing)) (t : Nat) :
    pointsInRD (finalizePass rd) t = pointsInRD rd t := by
  unfold pointsInRD getA
  rw [lookupA_finalizePass]
  cases hlk : lookupA t rd with
  | none => rfl
  | some s =>
    show (finalizeStanding s).points = s.points
    unfold finalizeStanding
    by_cases h : s.total_games > 0 <;> simp [h]

theorem scoredPair_loserOf (m : MatchRec) (w l : Nat) (h : scoredPair m = some (w, l)) :
    loserOf m = some l := by
  unfold scoredPair at h
  cases hw : m.winner with
  | none => rw [hw] at h; cases h
  | some wid =>
    rw [hw] at h
    simp only [] at h
    cases hgl : getLoser wid (getOpponents m) with
    | none => rw [hgl] at h; cases h
    | some lid =>
      rw [hgl] at h
      simp only [] at h
      by_cases hc : wid ≠ 0 ∧ lid ≠ 0
      · rw [if_pos hc] at h
        have hll : lid = l := congrArg Prod.snd (Option.some_inj.mp h)
        simp only [loserOf, hw, hgl, hll]
      · rw [if_neg hc] at h
        cases h

theorem winsCount_append_one (t : Nat) (ms : List MatchRec) (m : MatchRec) :
    winsCount t (ms ++ [m]) = winsCount t ms + (if m.winner == some t then 1 else 0) := by
  unfold winsCount
  rw [List.countP_append]
  simp [List.countP_cons]

theorem lossCount_append_one (t : Nat) (ms : List MatchRec) (m : MatchRec) :
    lossCount t (ms ++ [m]) = lossCount t ms + (if loserOf m == some t then 1 else 0) := by
  unfold lossCount
  rw [List.countP_append]
  simp [List.countP_cons]

theorem points_nonneg_pass2Go (ms : List MatchRec) : ∀ (rdW : List (Nat × Standing))
    (rd : List (Nat × Standing)), (∀ e ∈ rd, 0 ≤ e.2.points) →
    ∀ e ∈ ms.foldl (pass2Step (winratesOf rdW)) rd, 0 ≤ e.2.points := by
  induction ms with
  | nil => intro rdW rd h; exact h
  | cons m rest ih =>
    intro rdW rd h
    rw [List.foldl_cons]
    apply ih rdW
    cases hsp : scoredPair m with
    | none => simpa [pass2Step, hsp] using h
    | some p =>
      obtain ⟨wid, lid⟩ := p
      simp only [pass2Step, hsp]
      have hpa : (100 : ℚ) ≤ pointsAwarded (winratesOf rdW) m wid lid :=
        (pointsAwarded_bounds rdW m wid lid).1
      apply forall_mem_updD_pred (fun s => 0 ≤ s.points) defaultStanding wid _ rd h
      · intro b hb
        show 0 ≤ b.points + pointsAwarded (winratesOf rdW) m wid lid
        linarith
      · show 0 ≤ defaultStanding.points + pointsAwarded (winratesOf rdW) m wid lid
        show 0 ≤ 0 + pointsAwarded (winratesOf rdW) m wid lid
        linarith

/-- How much smaller a single match's contribution to team `T` can get when
the winrate table moves from `wrO` to `wrN`: at most 150 per unit of `T`'s
winrate increase (when `T` is the scored winner) plus 150 per unit of `L`'s
winrate decrease (when `L` is the computed loser). -/
theorem contrib_drop_bound (wrO wrN : List (Nat × ℚ)) (T L : Nat) (dT dL : ℚ) (m' : MatchRec)
    (hdT : 0 ≤ dT) (hdL : 0 ≤ dL)
    (hTle : wrGet wrO T ≤ wrGet wrN T) (hTd : wrGet wrN T - wrGet wrO T ≤ dT)
    (hLle : wrGet wrN L ≤ wrGet wrO L) (hLd : wrGet wrO L - wrGet wrN L ≤ dL)
    (hother : ∀ u, u ≠ T → u ≠ L → wrGet wrN u = wrGet wrO u) :
    contribOf wrO T m' - contribOf wrN T m' ≤
      150 * dT * (if m'.winner == some T then 1 else 0) +
      150 * dL * (if loserOf m' == some L then 1 else 0) := by
  have hif1 : (0:ℚ) ≤ (if m'.winner == some T then (1:ℚ) else 0) := by
    split <;> norm_num
  have hif2 : (0:ℚ) ≤ (if loserOf m' == some L then (1:ℚ) else 0) := by
    split <;> norm_num
  have hrhs1 : (0:ℚ) ≤ 150 * dT * (if m'.winner == some T then 1 else 0) :=
    mul_nonneg (mul_nonneg (by norm_num) hdT) hif1
  have hrhs2 : (0:ℚ) ≤ 150 * dL * (if loserOf m' == some L then 1 else 0) :=
    mul_nonneg (mul_nonneg (by norm_num) hdL) hif2
  cases hsp : scoredPair m' with
  | none =>
    simp only [contribOf, hsp]
    linarith
  | some p =>
    obtain ⟨w2, l2⟩ := p
    by_cases hwT : w2 = T
    case neg =>
      simp only [contribOf, hsp, if_neg hwT]
      linarith
    case pos =>
      subst hwT
      obtain ⟨hw0, hl0, hlw⟩ := scoredPair_facts m' w2 l2 hsp
      have hwin : m'.winner = some w2 := scoredPair_winner m' w2 l2 hsp
      have hlos : loserOf m' = some l2 := scoredPair_loserOf m' w2 l2 hsp
      have hb1 : (m'.winner == some w2) = true := by
        rw [hwin]
        simp
      simp only [contribOf, hsp, if_pos rfl, hb1, if_true]
      unfold pointsAwarded BASE_WIN_POINTS
      rw [leagueWeightGet_eq_one]
      obtain ⟨hs1, hs2⟩ := seriesMultGet_bounds m'.games
      have h150 : 100 * seriesMultGet m'.games ≤ 150 := by linarith
      have h100 : (0:ℚ) < 100 * seriesMultGet m'.games := by linarith
      by_cases hlL : l2 = L
      · subst hlL
        have hb2 : (loserOf m' == some l2) = true := by
          rw [hlos]
          simp
        rw [hb2, if_pos rfl]
        have hlip := winrateMultiplier_lipschitz (wrGet wrO w2) (wrGet wrN w2)
          (wrGet wrO l2) (wrGet wrN l2) hTle hLle
        set X := winrateMultiplier (wrGet wrO w2) (wrGet wrO l2) -
          winrateMultiplier (wrGet wrN w2) (wrGet wrN l2) with hX
        have hXD : X ≤ dL + dT := by linarith
        by_cases hXpos : 0 ≤ X
        · have hc1 : 100 * seriesMultGet m'.games * X ≤ 150 * X := by nlinarith
          nlinarith
        · have hc1 : 100 * seriesMultGet m'.games * X ≤ 0 := by nlinarith
          nlinarith
      · have hb2 : (loserOf m' == some L) = false := by
          rw [hlos]
          simp [hlL]
        rw [hb2]
        rw [if_neg (by simp : ¬(false = true))]
        have heq : wrGet wrN l2 = wrGet wrO l2 := hother l2 hlw hlL
        have hlip := winrateMultiplier_lipschitz (wrGet wrO w2) (wrGet wrN w2)
          (wrGet wrO l2) (wrGet wrN l2) hTle (le_of_eq heq)
        set X := winrateMultiplier (wrGet wrO w2) (wrGet wrO l2) -
          winrateMultiplier (wrGet wrN w2) (wrGet wrN l2) with hX
        have hXD : X ≤ dT := by
          rw [heq] at hlip
          linarith
        by_cases hXpos : 0 ≤ X
        · have hc1 : 100 * seriesMultGet m'.games * X ≤ 150 * X := by nlinarith
          nlinarith
        · have hc1 : 100 * seriesMultGet m'.games * X ≤ 0 := by nlinarith
          nlinarith

theorem contrib_sum_bound (wrO wrN : List (Nat × ℚ)) (T L : Nat) (dT dL : ℚ)
    (hdT : 0 ≤ dT) (hdL : 0 ≤ dL)
    (hTle : wrGet wrO T ≤ wrGet wrN T) (hTd : wrGet wrN T - wrGet wrO T ≤ dT)
    (hLle : wrGet wrN L ≤ wrGet wrO L) (hLd : wrGet wrO L - wrGet wrN L ≤ dL)
    (hother : ∀ u, u ≠ T → u ≠ L → wrGet wrN u = wrGet wrO u) (ms : List MatchRec) :
    (ms.map (contribOf wrO T)).sum - (ms.map (contribOf wrN T)).sum ≤
      150 * dT * (winsCount T ms : ℚ) + 150 * dL * (lossCount L ms : ℚ) := by
  induction ms with
  | nil => simp [winsCount, lossCount]
  | cons m' rest ih =>
    rw [List.map_cons, List.map_cons, List.sum_cons, List.sum_cons]
    have hstep := contrib_drop_bound wrO wrN T L dT dL m' hdT hdL hTle hTd hLle hLd hother
    unfold winsCount lossCount at ih ⊢
    rw [List.countP_cons, List.countP_cons]
    by_cases hw : (m'.winner == some T) = true <;>
      by_cases hl : (loserOf m' == some L) = true <;>
      simp only [hw, hl, if_true, if_false, Bool.false_eq_true, if_pos, if_neg] at hstep ⊢ <;>
      push_cast <;>
      linarith

/- ### Claim C9 -/

/-- C9 (amended): every produced standing carries non-negative points, and
appending one more scored decisive match won by team `T` over loser `L` —
both ids nonzero, so the match passes the pass-2 truthiness guard — never
decreases `T`'s final points total: the new win is worth at least 100
points while the winrate shifts it causes can reduce `T`'s other wins by
at most 75.  (A decisive match with a zero-id participant is excluded: it
awards nothing yet still raises the winner's pass-1 win rate, and can
strictly decrease the total — see the counterexample.) -/
theorem claim9_points (ms : List MatchRec) (tm : List (Nat × String)) (m : MatchRec)
    (T L : Nat) (st : P1State) (l : List Standing)
    (hrun : calculate_weighted_rankings ms tm = Except.ok l)
    (hp : pass1 ms (initRD tm) = Except.ok st)
    (hsp : scoredPair m = some (T, L)) :
    (∀ s ∈ l, 0 ≤ s.points) ∧
    (∃ st2, pass1 (ms ++ [m]) (initRD tm) = Except.ok st2 ∧
      pointsInRD (finalRD ms st) T ≤ pointsInRD (finalRD (ms ++ [m]) st2) T) := by
  constructor
  · intro s hs
    obtain ⟨e, he, hse⟩ := mem_standings ms tm st hp l hrun s hs
    have hinv := points_nonneg_pass2Go ms st.rd st.rd
      (forall_mem_pass1Go_pred (fun s => 0 ≤ s.points) ms { rd := initRD tm, opps := none } st hp
        (forall_mem_initRD (fun s => 0 ≤ s.points) tm (fun s nm hs2 => hs2) (fun nm => le_refl 0))
        (fun b hb => hb) (fun b hb => hb) (fun b g hb => hb))
      e he
    subst hse
    unfold finalizeStanding
    by_cases htg : e.2.total_games > 0
    · rw [if_pos htg]
      exact hinv
    · rw [if_neg htg]
      exact hinv
  · have hwin : m.winner = some T := scoredPair_winner m T L hsp
    have hlos : loserOf m = some L := scoredPair_loserOf m T L hsp
    obtain ⟨hT0, hL0, hLT⟩ := scoredPair_facts m T L hsp
    have hstep := pass1Step_winner_some st m T hwin
    obtain ⟨stN, hN⟩ : ∃ stN, pass1 (ms ++ [m]) (initRD tm) = Except.ok stN := by
      refine ⟨{ rd := gamesBlock m.games (getOpponents m) (winLossBlock T m st.rd),
                opps := some (getOpponents m) }, ?_⟩
      show (ms ++ [m]).foldlM pass1Step { rd := initRD tm, opps := none } = _
      rw [List.foldlM_append,
          show ms.foldlM pass1Step { rd := initRD tm, opps := none } = Except.ok st from hp]
      show [m].foldlM pass1Step st = _
      rw [List.foldlM_cons, hstep]
      rfl
    refine ⟨stN, hN, ?_⟩
    have hPO : pointsInRD (finalRD ms st) T = (ms.map (contribOf (winratesOf st.rd) T)).sum := by
      unfold finalRD
      rw [pointsInRD_finalizePass, pointsInRD_pass2Go, points_zero_pass1 ms tm st hp T]
      ring
    have hPN : pointsInRD (finalRD (ms ++ [m]) stN) T =
        (ms.map (contribOf (winratesOf stN.rd) T)).sum + contribOf (winratesOf stN.rd) T m := by
      unfold finalRD
      rw [pointsInRD_finalizePass, pointsInRD_pass2Go,
          points_zero_pass1 (ms ++ [m]) tm stN hN T, List.map_append, List.sum_append]
      simp
    have hbT : (m.winner == some T) = true := by rw [hwin]; simp
    have hbLL : (loserOf m == some L) = true := by rw [hlos]; simp
    have hbTL : (m.winner == some L) = false := by
      rw [hwin]
      simp
      intro hc
      exact hLT hc.symm
    have hbLT : (loserOf m == some T) = false := by
      rw [hlos]
      simp
      exact hLT
    have hwcT : winsCount T (ms ++ [m]) = winsCount T ms + 1 := by
      rw [winsCount_append_one, hbT]
      simp
    have hlcT : lossCount T (ms ++ [m]) = lossCount T ms := by
      rw [lossCount_append_one, hbLT]
      simp
    have hwcL : winsCount L (ms ++ [m]) = winsCount L ms := by
      rw [winsCount_append_one, hbTL]
      simp
    have hlcL : lossCount L (ms ++ [m]) = lossCount L ms + 1 := by
      rw [lossCount_append_one, hbLL]
      simp
    have hwrO := fun u => wrGet_pass1 ms tm st u hp
    have hwrN := fun u => wrGet_pass1 (ms ++ [m]) tm stN u hN
    have hTle : wrGet (winratesOf st.rd) T ≤ wrGet (winratesOf stN.rd) T := by
      rw [hwrO T, hwrN T, hwcT, hlcT]
      cases hik : hasKey T (initRD tm) with
      | true => simp only [if_pos rfl]; exact wrNat_mono_win (winsCount T ms) (lossCount T ms)
      | false => simp
    have hLle : wrGet (winratesOf stN.rd) L ≤ wrGet (winratesOf st.rd) L := by
      rw [hwrO L, hwrN L, hwcL, hlcL]
      cases hik : hasKey L (initRD tm) with
      | true => simp only [if_pos rfl]; exact wrNat_antitone_loss (winsCount L ms) (lossCount L ms)
      | false => simp
    have hother : ∀ u, u ≠ T → u ≠ L →
        wrGet (winratesOf stN.rd) u = wrGet (winratesOf st.rd) u := by
      intro u huT huL
      rw [hwrO u, hwrN u]
      have hwu : winsCount u (ms ++ [m]) = winsCount u ms := by
        rw [winsCount_append_one, show (m.winner == some u) = false from by
          rw [hwin]
          simp
          intro hc
          exact huT hc.symm]
        simp
      have hlu : lossCount u (ms ++ [m]) = lossCount u ms := by
        rw [lossCount_append_one, show (loserOf m == some u) = false from by
          rw [hlos]
          simp
          intro hc
          exact huL hc.symm]
        simp
      rw [hwu, hlu]
    have hdT : 0 ≤ wrGet (winratesOf stN.rd) T - wrGet (winratesOf st.rd) T := by linarith
    have hdL : 0 ≤ wrGet (winratesOf st.rd) L - wrGet (winratesOf stN.rd) L := by linarith
    have hboundT : (wrGet (winratesOf stN.rd) T - wrGet (winratesOf st.rd) T) *
        (winsCount T ms : ℚ) ≤ 1/4 := by
      rw [hwrO T, hwrN T, hwcT, hlcT]
      cases hik : hasKey T (initRD tm) with
      | true =>
        have := wrNat_win_gap (winsCount T ms) (lossCount T ms)
        show (wrNat (winsCount T ms + 1) (lossCount T ms) -
            wrNat (winsCount T ms) (lossCount T ms)) * ((winsCount T ms : Nat) : ℚ) ≤ 1/4
        rw [mul_comm]
        exact this
      | false =>
        simp
    have hboundL : (wrGet (winratesOf st.rd) L - wrGet (winratesOf stN.rd) L) *
        (lossCount L ms : ℚ) ≤ 1/4 := by
      rw [hwrO L, hwrN L, hwcL, hlcL]
      cases hik : hasKey L (initRD tm) with
      | true =>
        have := wrNat_loss_gap (winsCount L ms) (lossCount L ms)
        show (wrNat (winsCount L ms) (lossCount L ms) -
            wrNat (winsCount L ms) (lossCount L ms + 1)) * ((lossCount L ms : Nat) : ℚ) ≤ 1/4
        rw [mul_comm]
        exact this
      | false =>
        simp
    have hgain : (100 : ℚ) ≤ contribOf (winratesOf stN.rd) T m := by
      simp only [contribOf, hsp, if_pos rfl]
      exact (pointsAwarded_bounds stN.rd m T L).1
    have hsum := contrib_sum_bound (winratesOf st.rd) (winratesOf stN.rd) T L
      (wrGet (winratesOf stN.rd) T - wrGet (winratesOf st.rd) T)
      (wrGet (winratesOf st.rd) L - wrGet (winratesOf stN.rd) L)
      hdT hdL hTle (le_refl _) hLle (le_refl _) hother ms
    rw [hPO, hPN]
    nlinarith [hsum, hgain, hboundT, hboundL]

def claim9wm : MatchRec :=
  { winner := some 1, opponentsRaw := [some 1, some 2], games := 3, league := none }

def claim9w_tm : List (Nat × String) := [(1, "A"), (2, "B")]

def claim9w_st : P1State := { rd := initRD claim9w_tm, opps := none }

def claim9w_out : List Standing :=
  [{ wins := 0, losses := 0, points := 0, name := "A", total_games := 0, normalized_points := 0 },
   { wins := 0, losses := 0, points := 0, name := "B", total_games := 0, normalized_points := 0 }]

theorem claim9_witness :
    calculate_weighted_rankings [] claim9w_tm = Except.ok claim9w_out ∧
    pass1 [] (initRD claim9w_tm) = Except.ok claim9w_st ∧
    scoredPair claim9wm = some (1, 2) ∧
    ((∀ s ∈ claim9w_out, 0 ≤ s.points) ∧
     (∃ st2, pass1 ([] ++ [claim9wm]) (initRD claim9w_tm) = Except.ok st2 ∧
       pointsInRD (finalRD [] claim9w_st) 1 ≤ pointsInRD (finalRD ([] ++ [claim9wm]) st2) 1)) :=
  ⟨by rfl, by rfl, by decide,
   claim9_points [] claim9w_tm claim9wm 1 2 claim9w_st claim9w_out (by rfl) (by rfl) (by decide)⟩

/-- C9 counterexample inputs: teams 1 and 2 play three best-of-1 matches
(2 beats 1 twice, then 1 beats 2); the appended match is a decisive win by
team 1 over an opponent with id 0. -/
def c9xm1 : MatchRec :=
  { winner := some 2, opponentsRaw := [some 1, some 2], games := 1, league := none }

def c9xm3 : MatchRec :=
  { winner := some 1, opponentsRaw := [some 1, some 2], games := 1, league := none }

def c9xmz : MatchRec :=
  { winner := some 1, opponentsRaw := [some 1, some 0], games := 1, league := none }

def c9xms : List MatchRec := [c9xm1, c9xm1, c9xm3]

def c9xtm : List (Nat × String) := [(1, "A"), (2, "B")]

def c9xstO : P1State :=
  { rd := [(1, { wins := 1, losses := 2, points := 0, name := "A", total_games := 3,
                 normalized_points := 0 }),
           (2, { wins := 2, losses := 1, points := 0, name := "B", total_games := 3,
                 normalized_points := 0 })],
    opps := some [1, 2] }

def c9xstN : P1State :=
  { rd := [(1, { wins := 2, losses := 2, points := 0, name := "A", total_games := 4,
                 normalized_points := 0 }),
           (2, { wins := 2, losses := 1, points := 0, name := "B", total_games := 3,
                 normalized_points := 0 })],
    opps := some [1, 0] }

/-- C9 counterexample: appending a decisive match won by team 1 over an
id-0 opponent strictly decreases team 1's final points (400/3 to 350/3):
pass 1 counts the new win and raises team 1's win rate from 1/3 to 1/2,
shrinking the upset bonus of its earlier win over team 2, while the
truthiness guard awards no points for the new match itself. -/
theorem claim9_counterexample :
    (c9xmz.winner = some 1 ∧ loserOf c9xmz = some 0) ∧
    pass1 c9xms (initRD c9xtm) = Except.ok c9xstO ∧
    pass1 (c9xms ++ [c9xmz]) (initRD c9xtm) = Except.ok c9xstN ∧
    pointsInRD (finalRD c9xms c9xstO) 1 = 400/3 ∧
    pointsInRD (finalRD (c9xms ++ [c9xmz]) c9xstN) 1 = 350/3 ∧
    ¬ (pointsInRD (finalRD c9xms c9xstO) 1 ≤
        pointsInRD (finalRD (c9xms ++ [c9xmz]) c9xstN) 1) := by
  refine ⟨⟨rfl, by decide⟩, by rfl, by rfl, ?_, ?_, ?_⟩
  · norm_num [c9xms, c9xm1, c9xm3, c9xtm, c9xstO, finalRD, finalizePass, finalizeStanding,
      pointsInRD, pass2Step, pointsAwarded, BASE_WIN_POINTS, SERIES_MULTIPLIERS, seriesMultGet,
      LEAGUE_WEIGHTS, leagueWeightGet, winrateMultiplier, winratesOf, winrateOf, wrGet,
      initRD, updD, updA, hasKey, lookupA, getA, getOpponents, getLoser, scoredPair, addPoints,
      List.foldl, List.find?, List.filterMap]
  · norm_num [c9xms, c9xm1, c9xm3, c9xmz, c9xtm, c9xstN, finalRD, finalizePass, finalizeStanding,
      pointsInRD, pass2Step, pointsAwarded, BASE_WIN_POINTS, SERIES_MULTIPLIERS, seriesMultGet,
      LEAGUE_WEIGHTS, leagueWeightGet, winrateMultiplier, winratesOf, winrateOf, wrGet,
      initRD, updD, updA, hasKey, lookupA, getA, getOpponents, getLoser, scoredPair, addPoints,
      List.foldl, List.find?, List.filterMap]
  · norm_num [c9xms, c9xm1, c9xm3, c9xmz, c9xtm, c9xstO, c9xstN, finalRD, finalizePass,
      finalizeStanding, pointsInRD, pass2Step, pointsAwarded, BASE_WIN_POINTS, SERIES_MULTIPLIERS,
      seriesMultGet, LEAGUE_WEIGHTS, leagueWeightGet, winrateMultiplier, winratesOf, winrateOf,
      wrGet, initRD, updD, updA, hasKey, lookupA, getA, getOpponents, getLoser, scoredPair,
      addPoints, List.foldl, List.find?, List.filterMap]

end CompareTeams
